import Mathlib

/-!
Verification of the openbare client/edge core against its specification.

JavaScript strings are modelled as lists of UTF-16 code units (`List Nat`,
each unit < 0x10000).  Fallible operations return `Except`/`Option`.
Machine state (server pool, discovery cache) is passed explicitly.
-/

set_option maxHeartbeats 1000000

/-- Code units of a Lean string literal (used to write concrete JS strings). -/
def strUnits (s : String) : List Nat := s.data.map Char.toNat

/-! ## Protocol codec (src/client/src/codec.js)

`xor(str, key = 2)` maps each UTF-16 code unit through `^ key`;
`encodeUrl` = `btoa(xor(url))`, `decodeUrl` = `xor(atob(token))`.
Non-string input raises `TypeError` in both.
`btoa`/`atob` are the platform base64 transform on latin-1 "binary
strings": `btoa` rejects any unit above 255, `atob` rejects characters
outside the base64 alphabet or misplaced padding.  (The Node fall-back
branch `Buffer.from(s, "binary")` agrees with `btoa`/`atob` on every
input whose units are all < 256, which is the only case the codec
round-trip claim concerns.) -/

/-- A JavaScript value as far as the codec's `typeof x !== 'string'`
checks can distinguish: a string, or any non-string value. -/
inductive JSVal where
  | str (s : List Nat)
  | other (tag : Nat)
deriving DecidableEq

/-- Errors the codec can raise: `TypeError` from the explicit type checks,
`InvalidCharacterError` from `btoa`/`atob`. -/
inductive CodecError where
  | typeError
  | invalidCharacter
deriving DecidableEq

/-- The `xor` from codec.js with the default key 2: per-unit XOR. -/
def xorStr (s : List Nat) : List Nat := s.map (fun c => c ^^^ 2)

/-- Code unit of the base64 alphabet character at index `i` (0 ≤ i < 64):
A-Z, a-z, 0-9, '+', '/'. -/
def b64Char (i : Nat) : Nat :=
  if i < 26 then 65 + i
  else if i < 52 then 97 + (i - 26)
  else if i < 62 then 48 + (i - 52)
  else if i = 62 then 43
  else 47

/-- Index of a code unit in the base64 alphabet, `none` for characters
outside the alphabet (including the padding character '='). -/
def b64Index (c : Nat) : Option Nat :=
  if 65 ≤ c ∧ c ≤ 90 then some (c - 65)
  else if 97 ≤ c ∧ c ≤ 122 then some (c - 97 + 26)
  else if 48 ≤ c ∧ c ≤ 57 then some (c - 48 + 52)
  else if c = 43 then some 62
  else if c = 47 then some 63
  else none

/-- The 6-bit base64 values of a byte list (each byte < 256): groups of
three bytes give four values, a final group of one or two bytes gives
two or three values (their spare low bits zero). -/
def b64ValsOfBytes : List Nat → List Nat
  | [] => []
  | [a] => [a / 4, a % 4 * 16]
  | [a, b] => [a / 4, a % 4 * 16 + b / 16, b % 16 * 4]
  | a :: b :: c :: rest =>
      a / 4 :: (a % 4 * 16 + b / 16) :: (b % 16 * 4 + c / 64) :: c % 64 ::
      b64ValsOfBytes rest

/-- The '=' (61) padding `btoa` appends for a byte count `n`. -/
def b64Pad (n : Nat) : List Nat :=
  if n % 3 = 1 then [61, 61] else if n % 3 = 2 then [61] else []

/-- Base64-encode a byte list (each element < 256) into the code units
of the base64 text, as `btoa` does: alphabet characters of the 6-bit
values followed by '=' padding. -/
def b64EncodeBytes (s : List Nat) : List Nat :=
  (b64ValsOfBytes s).map b64Char ++ b64Pad s.length

/-- Strip the trailing '=' padding (at most two characters, and only
when the length is a multiple of four), as the forgiving-base64 decode
behind `atob` does. -/
def stripPad (cs : List Nat) : List Nat :=
  if cs.length % 4 = 0 then
    match cs.reverse with
    | e1 :: e2 :: r =>
        if e1 = 61 then (if e2 = 61 then r.reverse else (e2 :: r).reverse) else cs
    | _ => cs
  else cs

/-- Map every character to its base64 alphabet value; fails on any
character outside the alphabet (including a non-trailing '='). -/
def b64Vals : List Nat → Option (List Nat)
  | [] => some []
  | c :: rest => (b64Index c).bind fun v => (b64Vals rest).map fun vs => v :: vs

/-- Regroup 6-bit values into bytes: full groups of four give three
bytes, a final group of two or three gives one or two bytes (leftover
bits discarded); a leftover single value is an error. -/
def b64Bytes : List Nat → Option (List Nat)
  | [] => some []
  | [_] => none
  | [a, b] => some [a * 4 + b / 16]
  | [a, b, c] => some [a * 4 + b / 16, b % 16 * 16 + c / 4]
  | a :: b :: c :: d :: rest =>
      (b64Bytes rest).map
        (fun t => (a * 4 + b / 16) :: (b % 16 * 16 + c / 4) :: (c % 4 * 64 + d) :: t)

/-- Base64-decode code units into bytes, as `atob` does on
whitespace-free input: strip trailing padding, map through the alphabet,
regroup bits. -/
def b64DecodeChars (cs : List Nat) : Option (List Nat) :=
  (b64Vals (stripPad cs)).bind b64Bytes

/-- The `encodeUrl` from codec.js: type check, XOR with key 2, then `btoa`. -/
def encodeUrl : JSVal → Except CodecError (List Nat)
  | .str u =>
      if (xorStr u).all (fun c => c < 256) then .ok (b64EncodeBytes (xorStr u))
      else .error .invalidCharacter
  | .other _ => .error .typeError

/-- The `decodeUrl` from codec.js: type check, `atob`, then XOR with key 2. -/
def decodeUrl : JSVal → Except CodecError (List Nat)
  | .str t =>
      match b64DecodeChars t with
      | some bytes => .ok (xorStr bytes)
      | none => .error .invalidCharacter
  | .other _ => .error .typeError

/-! ## JSON (platform `JSON.stringify` / `JSON.parse`)

codec.js `encodeHeaders`/`decodeHeaders` and the edge handler serialize
header maps with the platform JSON functions.  Strings are lists of
UTF-16 code units; `JSON.stringify` escapes `"`,`\`, the control
characters and lone surrogates (paired surrogates pass through raw), and
`JSON.parse` accepts the full JSON grammar.  Numeric literals are kept
as their source text in `JsonVal.num` (no claim depends on float
decoding of numbers). -/

/-- A parsed JSON value (JavaScript value produced by `JSON.parse`). -/
inductive JsonVal where
  | null
  | bool (b : Bool)
  | num (lexeme : List Nat)
  | str (s : List Nat)
  | arr (elems : List JsonVal)
  | obj (members : List (List Nat × JsonVal))

/-- JS object key assignment: overwrite the value in place if the key is
present, append otherwise (property insertion order). -/
def objSet {α : Type} (m : List (List Nat × α)) (k : List Nat) (v : α) :
    List (List Nat × α) :=
  if m.any (fun kv => kv.1 = k) then m.map (fun kv => if kv.1 = k then (k, v) else kv)
  else m ++ [(k, v)]

/-- Assign a list of key/value pairs into a fresh object in order
(duplicate keys: last value wins, first position kept). -/
def dedupPairs {α : Type} (ms : List (List Nat × α)) : List (List Nat × α) :=
  ms.foldl (fun acc kv => objSet acc kv.1 kv.2) []

/-- The `String.prototype.toLowerCase` on one code unit, restricted to the
Basic Latin range (header names are ASCII; the full Unicode tables are
out of scope). -/
def jsToLowerUnit (c : Nat) : Nat := if 65 ≤ c ∧ c ≤ 90 then c + 32 else c

/-- The `key.toLowerCase()` over a code-unit string. -/
def jsToLowerStr (s : List Nat) : List Nat := s.map jsToLowerUnit

/-- A JS header object: string keys to string values, in insertion order. -/
abbrev HeaderMap := List (List Nat × List Nat)

/-- lowercase hex digit for a nibble, as `JSON.stringify` emits in
`\u00XX` escapes. -/
def hexDigitChar (n : Nat) : Nat := if n < 10 then 48 + n else 97 + (n - 10)

/-- The four hex digits of a code unit (< 0x10000). -/
def hex4 (c : Nat) : List Nat :=
  [hexDigitChar (c / 4096 % 16), hexDigitChar (c / 256 % 16),
   hexDigitChar (c / 16 % 16), hexDigitChar (c % 16)]

/-- Value of a hex digit character (`JSON.parse` accepts both cases). -/
def hexVal (c : Nat) : Option Nat :=
  if 48 ≤ c ∧ c ≤ 57 then some (c - 48)
  else if 97 ≤ c ∧ c ≤ 102 then some (c - 87)
  else if 65 ≤ c ∧ c ≤ 70 then some (c - 55)
  else none

def isHighSurrogate (c : Nat) : Bool := 55296 ≤ c ∧ c ≤ 56319

def isLowSurrogate (c : Nat) : Bool := 56320 ≤ c ∧ c ≤ 57343

/-- The `JSON.stringify` escape of one code unit outside a surrogate pair. -/
def escUnit (c : Nat) : List Nat :=
  if c = 34 then [92, 34]
  else if c = 92 then [92, 92]
  else if c = 8 then [92, 98]
  else if c = 9 then [92, 116]
  else if c = 10 then [92, 110]
  else if c = 12 then [92, 102]
  else if c = 13 then [92, 114]
  else if c < 32 then 92 :: 117 :: hex4 c
  else [c]

/-- The `JSON.stringify` escaping of string contents (well-formed mode:
lone surrogates are `\u`-escaped, paired surrogates pass through). -/
def escString : List Nat → List Nat
  | [] => []
  | c :: rest =>
      if isHighSurrogate c then
        match rest with
        | d :: rest2 =>
            if isLowSurrogate d then c :: d :: escString rest2
            else (92 :: 117 :: hex4 c) ++ escString (d :: rest2)
        | [] => 92 :: 117 :: hex4 c
      else if isLowSurrogate c then (92 :: 117 :: hex4 c) ++ escString rest
      else escUnit c ++ escString rest
termination_by s => s.length
decreasing_by all_goals (simp only [List.length_cons]; omega)

/-- A JSON string literal: quote, escaped contents, quote. -/
def quoteStr (s : List Nat) : List Nat := 34 :: escString s ++ [34]

/-- Join pieces with ',' (44), as in `JSON.stringify` output. -/
def joinComma : List (List Nat) → List Nat
  | [] => []
  | [x] => x
  | x :: y :: rest => x ++ 44 :: joinComma (y :: rest)

/-- The members of a stringified flat string-valued object. -/
def stringifyMembers (m : HeaderMap) : List Nat :=
  joinComma (m.map (fun kv => quoteStr kv.1 ++ 58 :: quoteStr kv.2))

/-- The `JSON.stringify` of a flat string-valued object. -/
def jsonStringifyFlat (m : HeaderMap) : List Nat :=
  123 :: stringifyMembers m ++ [125]

/-- The `encoded` object `encodeHeaders` builds: every entry assigned
under its lower-cased key, in order (JS assignment semantics on key
collision). -/
def lowerHeaders (h : HeaderMap) : HeaderMap :=
  h.foldl (fun m kv => objSet m (jsToLowerStr kv.1) kv.2) []

/-- The `encodeHeaders` from codec.js applied to a header object: lower-case
every key, `String(value)` is the identity on the string values the
claim concerns, then `JSON.stringify`.  (The source's guard returning
"\x7b\x7d" for non-object input is not modelled; the claims quantify over
header maps.) -/
def encodeHeaders (h : HeaderMap) : List Nat :=
  jsonStringifyFlat (lowerHeaders h)

/-- JSON whitespace skipping (space, tab, LF, CR). -/
def skipWs : List Nat → List Nat
  | [] => []
  | c :: rest => if c = 32 ∨ c = 9 ∨ c = 10 ∨ c = 13 then skipWs rest else c :: rest

/-- Parse the contents of a JSON string literal after the opening quote;
returns the decoded units and the input after the closing quote. -/
def parseJStr : List Nat → Option (List Nat × List Nat)
  | [] => none
  | c :: rest =>
      if c = 34 then some ([], rest)
      else if c = 92 then
        match rest with
        | [] => none
        | e :: rest2 =>
            if e = 34 then (parseJStr rest2).map (fun p => (34 :: p.1, p.2))
            else if e = 92 then (parseJStr rest2).map (fun p => (92 :: p.1, p.2))
            else if e = 47 then (parseJStr rest2).map (fun p => (47 :: p.1, p.2))
            else if e = 98 then (parseJStr rest2).map (fun p => (8 :: p.1, p.2))
            else if e = 102 then (parseJStr rest2).map (fun p => (12 :: p.1, p.2))
            else if e = 110 then (parseJStr rest2).map (fun p => (10 :: p.1, p.2))
            else if e = 114 then (parseJStr rest2).map (fun p => (13 :: p.1, p.2))
            else if e = 116 then (parseJStr rest2).map (fun p => (9 :: p.1, p.2))
            else if e = 117 then
              match rest2 with
              | h1 :: h2 :: h3 :: h4 :: rest3 =>
                  (hexVal h1).bind fun v1 => (hexVal h2).bind fun v2 =>
                  (hexVal h3).bind fun v3 => (hexVal h4).bind fun v4 =>
                  (parseJStr rest3).map
                    (fun p => ((v1 * 4096 + v2 * 256 + v3 * 16 + v4) :: p.1, p.2))
              | _ => none
            else none
      else if c < 32 then none
      else (parseJStr rest).map (fun p => (c :: p.1, p.2))

def isDigitU (c : Nat) : Bool := 48 ≤ c ∧ c ≤ 57

/-- Parse an optional exponent part of a JSON number. -/
def parseExpPart (cs : List Nat) : Option (List Nat × List Nat) :=
  match cs with
  | [] => some ([], [])
  | e :: rest =>
      if e = 101 ∨ e = 69 then
        match rest with
        | [] => none
        | s :: rest2 =>
            if s = 43 ∨ s = 45 then
              match rest2.span isDigitU with
              | ([], _) => none
              | (ds, r) => some (e :: s :: ds, r)
            else
              match rest.span isDigitU with
              | ([], _) => none
              | (ds, r) => some (e :: ds, r)
      else some ([], e :: rest)

/-- Parse an optional fraction then optional exponent of a JSON number. -/
def parseFracExp (cs : List Nat) : Option (List Nat × List Nat) :=
  match cs with
  | 46 :: rest =>
      (match rest.span isDigitU with
       | ([], _) => none
       | (ds, r) => (parseExpPart r).map (fun p => (46 :: ds ++ p.1, p.2)))
  | _ => parseExpPart cs

/-- Parse an unsigned JSON number (no leading zeros). -/
def parseNumPos (cs : List Nat) : Option (List Nat × List Nat) :=
  match cs with
  | [] => none
  | c :: rest =>
      if c = 48 then (parseFracExp rest).map (fun p => (48 :: p.1, p.2))
      else if 49 ≤ c ∧ c ≤ 57 then
        match rest.span isDigitU with
        | (ds, r) => (parseFracExp r).map (fun p => (c :: ds ++ p.1, p.2))
      else none

/-- Parse a JSON number literal, returning its lexeme. -/
def parseNumber (cs : List Nat) : Option (List Nat × List Nat) :=
  match cs with
  | 45 :: rest => (parseNumPos rest).map (fun p => (45 :: p.1, p.2))
  | _ => parseNumPos cs

mutual

/-- Parse one JSON value (fueled recursive-descent; the fuel only bounds
nesting depth and `jsonParse` supplies more than any input can use). -/
def parseValue : Nat → List Nat → Option (JsonVal × List Nat)
  | 0, _ => none
  | Nat.succ fuel, cs =>
      match cs with
      | [] => none
      | c :: rest =>
          if c = 110 then
            match rest with
            | 117 :: 108 :: 108 :: r => some (.null, r)
            | _ => none
          else if c = 116 then
            match rest with
            | 114 :: 117 :: 101 :: r => some (.bool true, r)
            | _ => none
          else if c = 102 then
            match rest with
            | 97 :: 108 :: 115 :: 101 :: r => some (.bool false, r)
            | _ => none
          else if c = 34 then (parseJStr rest).map (fun p => (.str p.1, p.2))
          else if c = 91 then
            match skipWs rest with
            | 93 :: r => some (.arr [], r)
            | r1 => (parseElems fuel r1).map (fun p => (.arr p.1, p.2))
          else if c = 123 then
            match skipWs rest with
            | 125 :: r => some (.obj [], r)
            | r1 => (parseMembers fuel r1).map (fun p => (.obj (dedupPairs p.1), p.2))
          else (parseNumber cs).map (fun p => (.num p.1, p.2))

/-- Parse the elements of a non-empty JSON array. -/
def parseElems : Nat → List Nat → Option (List JsonVal × List Nat)
  | 0, _ => none
  | Nat.succ fuel, cs =>
      (parseValue fuel (skipWs cs)).bind fun p =>
      match skipWs p.2 with
      | 44 :: r2 => (parseElems fuel r2).map (fun q => (p.1 :: q.1, q.2))
      | 93 :: r2 => some ([p.1], r2)
      | _ => none

/-- Parse the members of a non-empty JSON object. -/
def parseMembers : Nat → List Nat → Option (List (List Nat × JsonVal) × List Nat)
  | 0, _ => none
  | Nat.succ fuel, cs =>
      match skipWs cs with
      | 34 :: r =>
          (parseJStr r).bind fun pk =>
          match skipWs pk.2 with
          | 58 :: r2 =>
              (parseValue fuel (skipWs r2)).bind fun pv =>
              (match skipWs pv.2 with
               | 44 :: r4 => (parseMembers fuel r4).map (fun q => ((pk.1, pv.1) :: q.1, q.2))
               | 125 :: r4 => some ([(pk.1, pv.1)], r4)
               | _ => none)
          | _ => none
      | _ => none

end

/-- The `JSON.parse`: a complete JSON text, surrounding whitespace allowed;
`none` models the `SyntaxError` throw. -/
def jsonParse (s : List Nat) : Option JsonVal :=
  (parseValue (s.length + 1) (skipWs s)).bind fun p =>
  if skipWs p.2 = [] then some p.1 else none

/-- The `decodeHeaders` from codec.js: falsy (empty) input yields an empty
object, `JSON.parse` errors are caught and yield an empty object,
otherwise the parsed value is returned unchanged.  Totality of this
function is the formal counterpart of "never raises". -/
def decodeHeaders (s : List Nat) : JsonVal :=
  if s = [] then .obj []
  else
    match jsonParse s with
    | some v => v
    | none => .obj []

/-! ## Server pool (src/client/src/server-pool.js)

`ServerPool` keeps a `Map` from normalized URL to a mutable record;
modelled as a pool value with a record list in insertion order and all
mutation as explicit state passing.  Timestamps (`Date.now()`) enter as
explicit `now` arguments.  Latencies are JS numbers initialised to
`Infinity`; `JLat` mirrors the JS comparison semantics of `Infinity`. -/

/-- A JS latency value: `Infinity` or a finite number (as a rational). -/
inductive JLat where
  | inf
  | fin (q : ℚ)
deriving DecidableEq

/-- JS `<` on latency values (`Infinity < Infinity` is false). -/
def JLat.lt : JLat → JLat → Bool
  | .fin x, .fin y => x < y
  | .fin _, .inf => true
  | .inf, _ => false

/-- The `Math.round`: nearest integer, halves toward +∞. -/
def jsRound (q : ℚ) : ℚ := (⌊q + 1 / 2⌋ : ℤ)

/-- One record of `ServerPool#servers` (the `ServerInfo` typedef). -/
structure ServerInfo where
  url : List Nat
  priority : Int
  healthy : Bool
  latency : JLat
  failCount : Nat
  lastCheck : Int
  successCount : Nat
  totalRequests : Nat
deriving DecidableEq

/-- The `'fastest' | 'round-robin' | 'priority'` strategy option. -/
inductive Strategy where
  | fastest
  | roundRobin
  | priority
deriving DecidableEq

/-- Resolved pool options (after the constructor's defaulting). -/
structure PoolOptions where
  strategy : Strategy
  healthCheckInterval : Int
  maxFailures : Nat
  recoveryTime : Int
  timeout : Int
deriving DecidableEq

/-- The options the `ServerPool` constructor builds when given `{}`. -/
def defaultPoolOptions : PoolOptions :=
  { strategy := .fastest, healthCheckInterval := 30000, maxFailures := 3,
    recoveryTime := 60000, timeout := 5000 }

/-- The `ServerPool` state: options, records in `Map` insertion order, and
the round-robin counter. -/
structure ServerPool where
  options : PoolOptions
  servers : List ServerInfo
  roundRobinIndex : Nat
deriving DecidableEq

/-- The `#normalizeUrl`: strip trailing slashes ('/' is 47).  (The `new URL`
branch of the source normalizes to origin + pathname and then strips
trailing slashes the same way; the platform URL parser itself is not
modelled and no claim distinguishes the two branches.) -/
def normalizeUrl (url : List Nat) : List Nat :=
  (url.reverse.dropWhile (fun c => c = 47)).reverse

/-- The `Map.get` on the pool: first (only) record with the normalized URL. -/
def findServer (pool : ServerPool) (url : List Nat) : Option ServerInfo :=
  pool.servers.find? (fun s => s.url = normalizeUrl url)

/-- Apply `f` to the record stored under `url` (no-op when absent),
leaving every other record unchanged. -/
def updateServer (pool : ServerPool) (url : List Nat) (f : ServerInfo → ServerInfo) :
    ServerPool :=
  { pool with
    servers := pool.servers.map (fun s => if s.url = normalizeUrl url then f s else s) }

/-- The `addServer(url, priority = 10)`: update the priority of an existing
record, or append a fresh healthy record with `Infinity` latency. -/
def addServer (pool : ServerPool) (url : List Nat) (priority : Int := 10) : ServerPool :=
  let n := normalizeUrl url
  if pool.servers.any (fun s => s.url = n) then
    { pool with
      servers := pool.servers.map (fun s => if s.url = n then { s with priority } else s) }
  else
    { pool with
      servers := pool.servers ++
        [{ url := n, priority, healthy := true, latency := .inf, failCount := 0,
           lastCheck := 0, successCount := 0, totalRequests := 0 }] }

/-- The latency update of `reportSuccess`: first positive sample is
stored as-is, later samples fold in as `Math.round(0.7*old + 0.3*new)`. -/
def emaUpdate (old : JLat) (sample : ℚ) : JLat :=
  match old with
  | .inf => .fin sample
  | .fin q => .fin (jsRound (q * (7 / 10) + sample * (3 / 10)))

/-- The `reportSuccess(url, latency?)`: mark healthy, zero the failure
counter, bump counters, stamp the check time, and fold a positive
numeric latency sample into the estimate. -/
def reportSuccess (pool : ServerPool) (url : List Nat) (latency : Option ℚ) (now : Int) :
    ServerPool :=
  updateServer pool url (fun s =>
    { s with
      healthy := true, failCount := 0, successCount := s.successCount + 1,
      totalRequests := s.totalRequests + 1, lastCheck := now,
      latency :=
        match latency with
        | some l => if 0 < l then emaUpdate s.latency l else s.latency
        | none => s.latency })

/-- The `reportFailure(url)`: bump the failure counter and request total,
stamp the check time, and mark unhealthy once the counter reaches
`maxFailures`. -/
def reportFailure (pool : ServerPool) (url : List Nat) (now : Int) : ServerPool :=
  updateServer pool url (fun s =>
    let fc := s.failCount + 1
    { s with
      failCount := fc, totalRequests := s.totalRequests + 1, lastCheck := now,
      healthy := if pool.options.maxFailures ≤ fc then false else s.healthy })

/-- The lazy-recovery rewrite `getHealthyServers` applies to one record:
an unhealthy record past the recovery time becomes healthy again with a
zeroed failure counter. -/
def recoverServer (recoveryTime : Int) (now : Int) (s : ServerInfo) : ServerInfo :=
  if s.healthy then s
  else if recoveryTime < now - s.lastCheck then { s with healthy := true, failCount := 0 }
  else s

/-- The state mutation of `getHealthyServers`: lazy recovery applied to
every record.  Idempotent at a fixed `now`. -/
def applyRecovery (pool : ServerPool) (now : Int) : ServerPool :=
  { pool with servers := pool.servers.map (recoverServer pool.options.recoveryTime now) }

/-- The list `getHealthyServers` returns, read off the recovered pool. -/
def healthyOf (pool : ServerPool) : List ServerInfo :=
  pool.servers.filter (fun s => s.healthy)

/-- One step of the `#selectFastest` reduce: strictly smaller latency
wins; at equal latency a strictly smaller priority wins. -/
def fastestStep (best server : ServerInfo) : ServerInfo :=
  if JLat.lt server.latency best.latency then server
  else if server.latency = best.latency ∧ server.priority < best.priority then server
  else best

/-- The `#selectFastest` (`Array.prototype.reduce` over a non-empty list;
`none` for the empty list, which the callers rule out). -/
def selectFastest : List ServerInfo → Option ServerInfo
  | [] => none
  | s :: rest => some (rest.foldl fastestStep s)

/-- The `#selectByPriority`. -/
def selectByPriority : List ServerInfo → Option ServerInfo
  | [] => none
  | s :: rest => some (rest.foldl (fun best server =>
      if server.priority < best.priority then server else best) s)

/-- The `selectServer()`: recover lazily, take the healthy list, return
`none` when it is empty, otherwise dispatch on the strategy (round-robin
also bumps the counter). -/
def selectServerSt (pool : ServerPool) (now : Int) : ServerPool × Option ServerInfo :=
  let pool1 := applyRecovery pool now
  let healthy := healthyOf pool1
  if healthy.isEmpty then (pool1, none)
  else
    match pool1.options.strategy with
    | .fastest => (pool1, selectFastest healthy)
    | .roundRobin =>
        ({ pool1 with roundRobinIndex := pool1.roundRobinIndex + 1 },
         healthy.get? (pool1.roundRobinIndex % healthy.length))
    | .priority => (pool1, selectByPriority healthy)

/-- The `getNextServer(excludeUrl)`: fastest healthy record other than the
excluded URL (`selectFastest` returns `none` exactly when the source
returns `null`). -/
def getNextServerSt (pool : ServerPool) (now : Int) (excludeUrl : List Nat) :
    ServerPool × Option ServerInfo :=
  let pool1 := applyRecovery pool now
  (pool1, selectFastest ((healthyOf pool1).filter
    (fun s => s.url ≠ normalizeUrl excludeUrl)))

/-! ## Client failover loop (src/client/src/index.js, `OpenBareClient.fetch`)

Per attempt the loop selects a server, then runs
`while (server && attemptedServers.has(server.url)) server = getNextServer(server.url)`.
That inner loop has no termination guarantee in the source; it is
modelled with explicit fuel, `none` meaning it is still running after
`fuel` iterations.  The network is an oracle mapping attempt index and
server URL to that attempt's outcome; timestamps are frozen at a single
`now` (the claims are insensitive to clock advance within an operation,
and lazy recovery is idempotent at a fixed instant). -/

/-- Outcome of one `bareFetch` attempt against one server. -/
inductive AttemptResult where
  | success (latency : ℚ)
  | failure
deriving DecidableEq

/-- Resolve the inner while loop: starting from the selected `cur`,
follow `getNextServer` until a server outside the visited set (or
`null`) appears.  `none` = the loop is still running after `fuel`
steps. -/
def resolveUntried : Nat → ServerPool → Int → List (List Nat) → Option ServerInfo →
    Option (ServerPool × Option ServerInfo)
  | 0, _, _, _, _ => none
  | Nat.succ fuel, pool, now, attempted, cur =>
      match cur with
      | none => some (pool, none)
      | some s =>
          if attempted.contains s.url then
            match getNextServerSt pool now s.url with
            | (pool1, nxt) => resolveUntried fuel pool1 now attempted nxt
          else some (pool, some s)

/-- Result of one `OpenBareClient.fetch` call.  `hang` records that the
inner selection loop failed to terminate within one step per server plus
one (a correct loop over distinct untried servers never needs more). -/
inductive FetchOutcome where
  | ok (url : List Nat) (attempts : Nat)
  | allFailed (attempts : Nat)
  | hang
deriving DecidableEq

/-- The attempt loop of `OpenBareClient.fetch`: `fuel` is the remaining
attempt budget (`maxRetries - attempt`), `idx` the attempt index fed to
the oracle, `attempted` the visited set in insertion order. -/
def fetchGo (outcome : Nat → List Nat → AttemptResult) (now : Int) :
    Nat → Nat → ServerPool → List (List Nat) → FetchOutcome
  | 0, _, _, attempted => .allFailed attempted.length
  | Nat.succ fuel, idx, pool, attempted =>
      match selectServerSt pool now with
      | (pool1, sel) =>
          match resolveUntried (pool1.servers.length + 1) pool1 now attempted sel with
          | none => .hang
          | some (_, none) => .allFailed attempted.length
          | some (pool2, some s) =>
              let attempted1 := attempted ++ [s.url]
              match outcome idx s.url with
              | .success lat =>
                  -- reportSuccess then `return response`
                  let _ := reportSuccess pool2 s.url (some lat) now
                  .ok s.url attempted1.length
              | .failure =>
                  fetchGo outcome now fuel (idx + 1) (reportFailure pool2 s.url now) attempted1

/-- The `OpenBareClient.fetch` with `maxRetries` attempts (cancellation via
an abort signal is not modelled; no claim concerns it). -/
def clientFetch (outcome : Nat → List Nat → AttemptResult) (now : Int) (maxRetries : Nat)
    (pool : ServerPool) : FetchOutcome :=
  fetchGo outcome now maxRetries 0 pool []

/-! ## Edge relay handler (src/edge/src/bare-protocol.js, src/edge/src/index.js)

`Headers` objects are modelled as association lists of lowercase keys to
values (the platform lower-cases header names on iteration); `set`
replaces in place, `get` joins repeated entries with ", ". -/

/-- A `Headers`-like association list. -/
abbrev HeadersE := List (List Nat × List Nat)

/-- Join pieces with an arbitrary separator. -/
def joinSep (sep : List Nat) : List (List Nat) → List Nat
  | [] => []
  | [x] => x
  | x :: y :: rest => x ++ sep ++ joinSep sep (y :: rest)

/-- The `Headers.prototype.set`: replace the first entry for the key (and
drop any further ones), or append. -/
def hset : HeadersE → List Nat → List Nat → HeadersE
  | [], k, v => [(k, v)]
  | kv :: rest, k, v =>
      if kv.1 = k then (k, v) :: rest.filter (fun kv2 => kv2.1 ≠ k)
      else kv :: hset rest k v

/-- The `Headers.prototype.get`: `none` when absent, otherwise the values
joined with ", ". -/
def hget (m : HeadersE) (k : List Nat) : Option (List Nat) :=
  match m.filter (fun kv => kv.1 = k) with
  | [] => none
  | kvs => some (joinSep [44, 32] (kvs.map (fun kv => kv.2)))

/-- A value of the `responseHeaders` snapshot object: a single string,
or an array once a repeated header name was seen. -/
inductive HSnapVal where
  | one (v : List Nat)
  | many (vs : List (List Nat))

/-- The `// Handle multiple values` block of `buildBareResponseHeaders`:
`if (responseHeaders[key])` is a JS truthiness test, so an existing
*empty* value is overwritten rather than collected into an array. -/
def snapAdd (m : List (List Nat × HSnapVal)) (k v : List Nat) :
    List (List Nat × HSnapVal) :=
  match (m.find? (fun kv => kv.1 = k)).map (fun kv => kv.2) with
  | some (HSnapVal.many vs) => objSet m k (.many (vs ++ [v]))
  | some (HSnapVal.one old) =>
      if old = [] then objSet m k (.one v) else objSet m k (.many [old, v])
  | none => objSet m k (.one v)

/-- The `responseHeaders` object `buildBareResponseHeaders` collects:
every upstream entry whose lower-cased name is not on the deny-list. -/
def bareSnapshot (headers : HeadersE) (strip : List (List Nat)) :
    List (List Nat × HSnapVal) :=
  headers.foldl
    (fun acc kv =>
      if strip.contains (jsToLowerStr kv.1) then acc else snapAdd acc kv.1 kv.2) []

/-- The `JSON.stringify` of one snapshot value. -/
def stringifySnapVal : HSnapVal → List Nat
  | .one v => quoteStr v
  | .many vs => 91 :: joinComma (vs.map quoteStr) ++ [93]

/-- The `JSON.stringify` of the snapshot object. -/
def stringifySnap (m : List (List Nat × HSnapVal)) : List Nat :=
  123 :: joinComma (m.map (fun kv => quoteStr kv.1 ++ 58 :: stringifySnapVal kv.2)) ++ [125]

/-- The `status.toString()`: decimal digits. -/
def natStr (n : Nat) : List Nat := (Nat.repr n).data.map Char.toNat

/-- The `STRIP_HEADERS` from src/edge/src/index.js. -/
def STRIP_HEADERS : List (List Nat) :=
  [strUnits ("x-frame-options"),
   strUnits ("content-security-policy"),
   strUnits ("content-security-policy-report-only"),
   strUnits ("x-content-type-options"),
   strUnits ("x-xss-protection"),
   strUnits ("strict-transport-security"),
   strUnits ("cross-origin-opener-policy"),
   strUnits ("cross-origin-embedder-policy"),
   strUnits ("cross-origin-resource-policy"),
   strUnits ("permissions-policy")]

/-- The upstream `fetch` response as the handler reads it. -/
structure UpResponse where
  status : Nat
  statusText : List Nat
  headers : HeadersE

/-- The `buildBareResponseHeaders(response, corsHeaders, stripHeaders)`:
start from the CORS headers, collect the deny-list-filtered snapshot,
set the three `x-bare-*` sidecar headers, then pass through truthy
`content-type` / `content-length` / `content-encoding`. -/
def buildBareResponseHeaders (resp : UpResponse) (cors : HeadersE)
    (strip : List (List Nat)) : HeadersE :=
  let snapshot := bareSnapshot resp.headers strip
  let h0 := cors
  let h1 := hset h0 (strUnits ("x-bare-status")) (natStr resp.status)
  let h2 := hset h1 (strUnits ("x-bare-status-text")) resp.statusText
  let h3 := hset h2 (strUnits ("x-bare-headers")) (stringifySnap snapshot)
  let h4 :=
    match hget resp.headers (strUnits ("content-type")) with
    | some v => if v ≠ [] then hset h3 (strUnits ("content-type")) v else h3
    | none => h3
  let h5 :=
    match hget resp.headers (strUnits ("content-length")) with
    | some v => if v ≠ [] then hset h4 (strUnits ("content-length")) v else h4
    | none => h4
  match hget resp.headers (strUnits ("content-encoding")) with
  | some v => if v ≠ [] then hset h5 (strUnits ("content-encoding")) v else h5
  | none => h5

/-- The `String.prototype.split(',')`. -/
def splitOn44 : List Nat → List (List Nat)
  | [] => [[]]
  | c :: rest =>
      if c = 44 then [] :: splitOn44 rest
      else
        match splitOn44 rest with
        | t :: ts => (c :: t) :: ts
        | [] => [[c]]

def isJsWs (c : Nat) : Bool := c = 32 ∨ c = 9 ∨ c = 10 ∨ c = 13 ∨ c = 11 ∨ c = 12

/-- The `String.prototype.trim`. -/
def jsTrim (s : List Nat) : List Nat :=
  ((s.dropWhile isJsWs).reverse.dropWhile isJsWs).reverse

/-- The `x-bare-forward-headers` / `x-bare-pass-headers` parse of
`parseBareHeaders`: absent gives `[]`, `JSON.parse` is tried first and
its value kept as-is, a parse error falls back to a comma split with
trimming. -/
def parseHeaderList (raw : Option (List Nat)) : JsonVal :=
  match raw with
  | none => .arr []
  | some s =>
      match jsonParse s with
      | some v => v
      | none => .arr ((splitOn44 s).map (fun t => .str (jsTrim t)))

/-- The fields of the `parseBareHeaders` result that the response path
can observe (`passStatus`, the URL components and the outgoing-header
construction are not needed by any claim about the response build). -/
structure BareData where
  url : Option (List Nat)
  headers : JsonVal
  forwardHeaders : JsonVal
  passHeaders : JsonVal

/-- Parse the two list-valued sidecar request headers as
`parseBareHeaders` does. -/
def parseBareListHeaders (bareUrl : Option (List Nat))
    (rawHeaders : Option (List Nat)) (rawForward rawPass : Option (List Nat)) :
    BareData :=
  { url := bareUrl,
    headers := (match rawHeaders with
                | none => .obj []
                | some s => (jsonParse s).getD (.obj [])),
    forwardHeaders := parseHeaderList rawForward,
    passHeaders := parseHeaderList rawPass }

/-- The wrapper response the worker returns. -/
structure WResponse where
  status : Nat
  headers : HeadersE

/-- The success path of `handleBareV3Request` (lines 218–227): after the
upstream fetch resolves, the wrapper response has fixed status 200 and
the headers built by `buildBareResponseHeaders(response, corsHeaders,
stripHeaders)`.  The parsed request metadata `bare` is threaded through
exactly as in the source: its `passHeaders` field is never consulted by
the response build. -/
def handleBareV3Fetched (bare : BareData) (upstream : UpResponse)
    (cors : HeadersE) (strip : List (List Nat)) : WResponse :=
  let _ := bare
  { status := 200, headers := buildBareResponseHeaders upstream cors strip }

/-! ## Discovery client (src/client/src/discovery.js)

`fetchNodes` is modelled as a state transition on the private cache
`(#nodes, #lastFetch)`.  The network interaction is an oracle value
enumerating the outcome points of the `try` block in source order; every
failure is caught by the single `catch` and re-thrown as a
`DiscoveryError`, and `#notifyListeners` runs only on the success path
(its payload is returned explicitly). -/

/-- Is a JS value truthy?  For numbers the JSON lexeme denotes zero
exactly when its mantissa has no nonzero digit. -/
def numIsZero (lex : List Nat) : Bool :=
  ((lex.takeWhile (fun c => c ≠ 101 ∧ c ≠ 69)).filter isDigitU).all (fun c => c = 48)

def jsTruthy : JsonVal → Bool
  | .null => false
  | .bool b => b
  | .num lex => ¬ numIsZero lex
  | .str s => s ≠ []
  | .arr _ => true
  | .obj _ => true

/-- Property lookup on an object member list. -/
def objGet {α : Type} (m : List (List Nat × α)) (k : List Nat) : Option α :=
  (m.find? (fun kv => kv.1 = k)).map (fun kv => kv.2)

/-- A truthy property, as the `||` chains read it (`none` for absent or
falsy). -/
def truthyField (ms : List (List Nat × JsonVal)) (k : List Nat) : Option JsonVal :=
  match objGet ms k with
  | some v => if jsTruthy v then some v else none
  | none => none

/-- A normalized `RegistryNode` (the `#normalizeNode` output shape). -/
structure RegistryNode where
  url : List Nat
  name : Option JsonVal
  region : Option JsonVal
  operator : Option JsonVal
  verified : Bool
  features : List JsonVal
  uptime : Option (List Nat)

/-- Model of the `new URL(s)` validity test: an ASCII-alphabetic scheme
followed by ':'.  The full WHATWG URL parser is a platform facility and
is not modelled; no claim depends on which particular records validate. -/
def isAbsUrlString : List Nat → Bool
  | [] => false
  | c :: rest =>
      (decide ((65 ≤ c ∧ c ≤ 90) ∨ (97 ≤ c ∧ c ≤ 122))) &&
      (match (rest.dropWhile (fun d =>
          (48 ≤ d ∧ d ≤ 57) ∨ (65 ≤ d ∧ d ≤ 90) ∨ (97 ≤ d ∧ d ≤ 122) ∨
          d = 43 ∨ d = 45 ∨ d = 46)) with
       | 58 :: _ => true
       | _ => false)

/-- The `#isValidNode`: an object whose `url` property is a truthy string
that parses as a URL.  (Falsy and non-object values, and arrays, whose
`url` access yields `undefined`, all fail.) -/
def isValidNode (node : JsonVal) : Bool :=
  match node with
  | .obj ms =>
      match objGet ms (strUnits ("url")) with
      | some (.str s) => s ≠ [] ∧ isAbsUrlString s
      | _ => false
  | _ => false

/-- The `#normalizeNode`: explicit defaults for missing/falsy optional
fields (`x || null`, `Boolean(x)`, array check, number check). -/
def normalizeNode (node : JsonVal) : RegistryNode :=
  match node with
  | .obj ms =>
      { url := (match objGet ms (strUnits ("url")) with
                | some (.str s) => s
                | _ => []),
        name := truthyField ms (strUnits ("name")),
        region := truthyField ms (strUnits ("region")),
        operator := truthyField ms (strUnits ("operator")),
        verified := (match objGet ms (strUnits ("verified")) with
                     | some v => jsTruthy v
                     | none => false),
        features := (match objGet ms (strUnits ("features")) with
                     | some (.arr es) => es
                     | _ => []),
        uptime := (match objGet ms (strUnits ("uptime")) with
                   | some (.num lex) => some lex
                   | _ => none) }
  | _ =>
      { url := [], name := none, region := none, operator := none,
        verified := false, features := [], uptime := none }

/-- The `Array.isArray(data) ? data : (data.nodes || data.servers || [])`,
with the JS failure modes made explicit: property access on `null`
throws, and a truthy non-array result makes the subsequent `.filter`
throw — both surface as `none` (caught by `fetchNodes`). -/
def extractNodes : JsonVal → Option (List JsonVal)
  | .arr es => some es
  | .null => none
  | .obj ms =>
      (match (truthyField ms (strUnits ("nodes"))).orElse
          (fun _ => truthyField ms (strUnits ("servers"))) with
       | none => some []
       | some (.arr es) => some es
       | some _ => none)
  | .bool _ => some []
  | .num _ => some []
  | .str _ => some []

/-- The private cache of a `Discovery` instance. -/
structure DiscoveryState where
  nodes : List RegistryNode
  lastFetch : Int

/-- Where the `try` block of `fetchNodes` can leave the straight-line
path: `new URL` throwing, `fetch` rejecting, `!response.ok`,
`response.json()` rejecting, or a parsed JSON body. -/
inductive RegFetchOutcome where
  | urlError
  | networkError
  | badStatus (code : Nat)
  | badJson
  | jsonOk (data : JsonVal)

/-- The `DiscoveryError` the single catch block rethrows. -/
inductive DiscoveryError where
  | fetchError
deriving DecidableEq

/-- The `Discovery.fetchNodes`: returns the new cache state, the caller's
result, and the payload passed to listeners (`none` = listeners not
notified).  Every mutation of `#nodes`/`#lastFetch` happens after all
possible throw points, so any failure leaves the state untouched. -/
def fetchNodes (st : DiscoveryState) (outcome : RegFetchOutcome) (now : Int) :
    DiscoveryState × Except DiscoveryError (List RegistryNode) ×
      Option (List RegistryNode) :=
  match outcome with
  | .jsonOk data =>
      (match extractNodes data with
       | none => (st, .error .fetchError, none)
       | some raw =>
           let valid := (raw.filter isValidNode).map normalizeNode
           ({ nodes := valid, lastFetch := now }, .ok valid, some valid))
  | _ => (st, .error .fetchError, none)

/-- A healthy node record with the given latency and priority (the
shape the claims' example pools use). -/
def exNode (u : List Nat) (lat : ℚ) (pri : Int) : ServerInfo :=
  { url := u, priority := pri, healthy := true, latency := .fin lat, failCount := 0,
    lastCheck := 0, successCount := 0, totalRequests := 0 }

/-- The two-node pool of the claim's failover scenario. -/
def c6urlA : List Nat := strUnits ("https://a")

def c6urlB : List Nat := strUnits ("https://b")

def c6pool : ServerPool :=
  addServer (addServer
    { options := defaultPoolOptions, servers := [], roundRobinIndex := 0 } c6urlA 10)
    c6urlB 10

/-- A network where every attempt against every server fails. -/
def allFail : Nat → List Nat → AttemptResult := fun _ _ => .failure

/-- The record of node A after one failure at time 0. -/
def c6recA : ServerInfo :=
  { url := c6urlA, priority := 10, healthy := true, latency := .inf, failCount := 1,
    lastCheck := 0, successCount := 0, totalRequests := 1 }

/-- The record of node B after one failure at time 0. -/
def c6recB : ServerInfo :=
  { url := c6urlB, priority := 10, healthy := true, latency := .inf, failCount := 1,
    lastCheck := 0, successCount := 0, totalRequests := 1 }

/-- The pool state at the start of the third attempt of the all-fail
run: both nodes visited, once-failed, and still healthy. -/
def hangPool : ServerPool :=
  { options := defaultPoolOptions, servers := [c6recA, c6recB], roundRobinIndex := 0 }

/-! ## Theorems -/

theorem b64Index_b64Char : ∀ i : Nat, i < 64 → b64Index (b64Char i) = some i := by decide

theorem b64Char_ne_61 : ∀ i : Nat, i < 64 → b64Char i ≠ 61 := by decide

theorem b64ValsOfBytes_lt : ∀ s : List Nat, (∀ c ∈ s, c < 256) →
    ∀ v ∈ b64ValsOfBytes s, v < 64
  | [], _ => by simp [b64ValsOfBytes]
  | [a], h => by
      have ha : a < 256 := h a (by simp)
      simp only [b64ValsOfBytes, List.mem_cons, List.not_mem_nil, or_false]
      rintro v (rfl | rfl) <;> omega
  | [a, b], h => by
      have ha : a < 256 := h a (by simp)
      have hb : b < 256 := h b (by simp)
      simp only [b64ValsOfBytes, List.mem_cons, List.not_mem_nil, or_false]
      rintro v (rfl | rfl | rfl) <;> omega
  | a :: b :: c :: rest, h => by
      have ha : a < 256 := h a (by simp)
      have hb : b < 256 := h b (by simp)
      have hc : c < 256 := h c (by simp)
      have ih := b64ValsOfBytes_lt rest (fun v hv => h v (by simp [hv]))
      intro v hv
      simp only [b64ValsOfBytes, List.mem_cons] at hv
      rcases hv with rfl | rfl | rfl | rfl | hv
      · omega
      · omega
      · omega
      · omega
      · exact ih v hv

theorem b64ValsOfBytes_length : ∀ s : List Nat,
    (b64ValsOfBytes s).length =
      s.length / 3 * 4 + s.length % 3 + (if s.length % 3 = 0 then 0 else 1)
  | [] => by simp [b64ValsOfBytes]
  | [a] => by simp [b64ValsOfBytes]
  | [a, b] => by simp [b64ValsOfBytes]
  | a :: b :: c :: rest => by
      have ih := b64ValsOfBytes_length rest
      have h1 : (rest.length + 3) / 3 = rest.length / 3 + 1 := by omega
      have h2 : (rest.length + 3) % 3 = rest.length % 3 := by omega
      simp only [b64ValsOfBytes, List.length_cons, ih, h1, h2]
      by_cases h0 : rest.length % 3 = 0 <;> simp [h0] <;> omega

theorem b64Vals_map : ∀ l : List Nat, (∀ v ∈ l, v < 64) →
    b64Vals (l.map b64Char) = some l
  | [], _ => rfl
  | v :: rest, h => by
      have ih := b64Vals_map rest (fun w hw => h w (by simp [hw]))
      simp [b64Vals, b64Index_b64Char v (h v (by simp)), ih]

theorem b64Bytes_vals : ∀ s : List Nat, (∀ c ∈ s, c < 256) →
    b64Bytes (b64ValsOfBytes s) = some s
  | [], _ => rfl
  | [a], h => by
      have ha : a < 256 := h a (by simp)
      simp [b64ValsOfBytes, b64Bytes]
      omega
  | [a, b], h => by
      have ha : a < 256 := h a (by simp)
      have hb : b < 256 := h b (by simp)
      simp [b64ValsOfBytes, b64Bytes]
      omega
  | a :: b :: c :: rest, h => by
      have ha : a < 256 := h a (by simp)
      have hb : b < 256 := h b (by simp)
      have hc : c < 256 := h c (by simp)
      have ih := b64Bytes_vals rest (fun v hv => h v (by simp [hv]))
      simp [b64ValsOfBytes, b64Bytes, ih]
      omega

theorem stripPad_append2 (l : List Nat) (h : l.length % 4 = 2) :
    stripPad (l ++ [61, 61]) = l := by
  have hlen : (l ++ [61, 61]).length % 4 = 0 := by simp; omega
  have hrev : (l ++ [61, 61]).reverse = 61 :: 61 :: l.reverse := by simp
  unfold stripPad
  rw [if_pos hlen, hrev]
  simp

theorem stripPad_append1 (l : List Nat) (h : l.length % 4 = 3)
    (hne : ∀ e ∈ l, e ≠ 61) : stripPad (l ++ [61]) = l := by
  have hlen : (l ++ [61]).length % 4 = 0 := by simp; omega
  cases hl : l.reverse with
  | nil =>
      rw [List.reverse_eq_nil_iff] at hl
      subst hl
      simp at h
  | cons e1 r1 =>
      have he1 : e1 ≠ 61 := hne e1 (by rw [← List.mem_reverse, hl]; simp)
      have hrev : (l ++ [61]).reverse = 61 :: e1 :: r1 := by simp [hl]
      unfold stripPad
      rw [if_pos hlen, hrev]
      show (if 61 = 61 then if e1 = 61 then r1.reverse else (e1 :: r1).reverse
            else l ++ [61]) = l
      rw [if_pos rfl, if_neg he1, ← hl, List.reverse_reverse]

theorem stripPad_id (l : List Nat) (h : l.length % 4 = 0)
    (hne : ∀ e ∈ l, e ≠ 61) : stripPad l = l := by
  unfold stripPad
  rw [if_pos h]
  cases hl : l.reverse with
  | nil => rfl
  | cons e1 r1 =>
      cases r1 with
      | nil => rfl
      | cons e2 r2 =>
          have he1 : e1 ≠ 61 := hne e1 (by rw [← List.mem_reverse, hl]; simp)
          simp [he1]

theorem stripPad_encode (s : List Nat) (h : ∀ c ∈ s, c < 256) :
    stripPad (b64EncodeBytes s) = (b64ValsOfBytes s).map b64Char := by
  have hne : ∀ e ∈ (b64ValsOfBytes s).map b64Char, e ≠ 61 := by
    intro e he
    simp only [List.mem_map] at he
    obtain ⟨v, hv, rfl⟩ := he
    exact b64Char_ne_61 v (b64ValsOfBytes_lt s h v hv)
  have hlen := b64ValsOfBytes_length s
  have hml : ((b64ValsOfBytes s).map b64Char).length = (b64ValsOfBytes s).length :=
    List.length_map _ _
  rcases h3 : s.length % 3 with _ | n3
  · rw [h3] at hlen
    norm_num at hlen
    unfold b64EncodeBytes b64Pad
    rw [h3]
    norm_num
    exact stripPad_id _ (by omega) hne
  · rcases n3 with _ | n4
    · rw [h3] at hlen
      simp at hlen
      unfold b64EncodeBytes b64Pad
      rw [h3]
      norm_num
      exact stripPad_append2 _ (by omega)
    · rcases n4 with _ | n5
      · rw [h3] at hlen
        simp at hlen
        unfold b64EncodeBytes b64Pad
        rw [h3]
        norm_num
        exact stripPad_append1 _ (by omega) hne
      · exact absurd h3 (by omega)

/-- Decoding inverts encoding on byte lists. -/
theorem b64_roundtrip (s : List Nat) (h : ∀ c ∈ s, c < 256) :
    b64DecodeChars (b64EncodeBytes s) = some s := by
  unfold b64DecodeChars
  rw [stripPad_encode s h, b64Vals_map _ (b64ValsOfBytes_lt s h)]
  simpa using b64Bytes_vals s h

theorem xorStr_xorStr (u : List Nat) : xorStr (xorStr u) = u := by
  induction u with
  | nil => rfl
  | cons c rest ih =>
      show ((c ^^^ 2) ^^^ 2) :: xorStr (xorStr rest) = c :: rest
      rw [Nat.xor_assoc, Nat.xor_self, Nat.xor_zero, ih]

theorem xorStr_lt (u : List Nat) (h : ∀ c ∈ u, c < 256) :
    ∀ c ∈ xorStr u, c < 256 := by
  intro c hc
  simp only [xorStr, List.mem_map] at hc
  obtain ⟨d, hd, rfl⟩ := hc
  have h256 : (256 : ℕ) = 2 ^ 8 := by norm_num
  rw [h256]
  exact Nat.xor_lt_two_pow (h256 ▸ h d hd) (by norm_num)

/-- C1: for every URL string whose code units are all below 256 (valid
URLs serialize to ASCII, a subset), `decodeUrl (encodeUrl u)` succeeds
and returns `u` exactly; on every non-string input both `encodeUrl` and
`decodeUrl` fail with the invalid-input `TypeError`. -/
theorem C1_codec_url_roundtrip :
    (∀ u : List Nat, (∀ c ∈ u, c < 256) →
        ∃ t, encodeUrl (JSVal.str u) = .ok t ∧ decodeUrl (JSVal.str t) = .ok u) ∧
    (∀ tag, encodeUrl (JSVal.other tag) = .error .typeError) ∧
    (∀ tag, decodeUrl (JSVal.other tag) = .error .typeError) := by
  refine ⟨?_, fun _ => rfl, fun _ => rfl⟩
  intro u hu
  have hx := xorStr_lt u hu
  refine ⟨b64EncodeBytes (xorStr u), ?_, ?_⟩
  · simp only [encodeUrl]
    rw [if_pos]
    exact List.all_eq_true.2 (fun c hc => decide_eq_true (hx c hc))
  · simp only [decodeUrl]
    rw [b64_roundtrip (xorStr u) hx]
    show Except.ok (xorStr (xorStr u)) = Except.ok u
    rw [xorStr_xorStr]

/-- Witness for C1 at a concrete URL. -/
theorem C1_codec_url_roundtrip_witness :
    ∃ t, encodeUrl (JSVal.str (strUnits ("https://example.com/path?query=value"))) = .ok t ∧
      decodeUrl (JSVal.str t) = .ok (strUnits ("https://example.com/path?query=value")) :=
  C1_codec_url_roundtrip.1 (strUnits ("https://example.com/path?query=value")) (by decide)

theorem hexVal_hexDigitChar : ∀ n : Nat, n < 16 → hexVal (hexDigitChar n) = some n := by
  decide

theorem parseJStr_raw (c : Nat) (h34 : c ≠ 34) (h92 : c ≠ 92) (h32 : ¬ c < 32)
    (l : List Nat) :
    parseJStr (c :: l) = (parseJStr l).map (fun p => (c :: p.1, p.2)) := by
  rw [parseJStr.eq_def]
  dsimp only
  rw [if_neg h34, if_neg h92, if_neg h32]

theorem parseJStr_u (c : Nat) (hc : c < 65536) (l : List Nat) :
    parseJStr (92 :: 117 :: hex4 c ++ l) = (parseJStr l).map (fun p => (c :: p.1, p.2)) := by
  have k1 : c / 4096 % 16 < 16 := Nat.mod_lt _ (by norm_num)
  have k2 : c / 256 % 16 < 16 := Nat.mod_lt _ (by norm_num)
  have k3 : c / 16 % 16 < 16 := Nat.mod_lt _ (by norm_num)
  have k4 : c % 16 < 16 := Nat.mod_lt _ (by norm_num)
  rw [parseJStr.eq_def]
  simp only [hex4, List.cons_append, List.nil_append]
  norm_num [hexVal_hexDigitChar _ k1, hexVal_hexDigitChar _ k2, hexVal_hexDigitChar _ k3,
    hexVal_hexDigitChar _ k4]
  have e : c / 4096 % 16 * 4096 + c / 256 % 16 * 256 + c / 16 % 16 * 16 + c % 16 = c := by
    omega
  rw [e]

theorem parseJStr_escUnit (c : Nat) (hH : ¬ isHighSurrogate c = true)
    (hL : ¬ isLowSurrogate c = true) (l : List Nat) :
    parseJStr (escUnit c ++ l) = (parseJStr l).map (fun p => (c :: p.1, p.2)) := by
  by_cases h34 : c = 34
  · subst h34; rw [show escUnit 34 = [92, 34] from rfl, parseJStr.eq_def]; norm_num
  by_cases h92 : c = 92
  · subst h92; rw [show escUnit 92 = [92, 92] from rfl, parseJStr.eq_def]; norm_num
  by_cases h8 : c = 8
  · subst h8; rw [show escUnit 8 = [92, 98] from rfl, parseJStr.eq_def]; norm_num
  by_cases h9 : c = 9
  · subst h9; rw [show escUnit 9 = [92, 116] from rfl, parseJStr.eq_def]; norm_num
  by_cases h10 : c = 10
  · subst h10; rw [show escUnit 10 = [92, 110] from rfl, parseJStr.eq_def]; norm_num
  by_cases h12 : c = 12
  · subst h12; rw [show escUnit 12 = [92, 102] from rfl, parseJStr.eq_def]; norm_num
  by_cases h13 : c = 13
  · subst h13; rw [show escUnit 13 = [92, 114] from rfl, parseJStr.eq_def]; norm_num
  by_cases h32 : c < 32
  · have hesc : escUnit c = 92 :: 117 :: hex4 c := by
      unfold escUnit
      rw [if_neg h34, if_neg h92, if_neg h8, if_neg h9, if_neg h10, if_neg h12,
        if_neg h13, if_pos h32]
    rw [hesc, parseJStr_u c (by omega) l]
  · have hesc : escUnit c = [c] := by
      unfold escUnit
      rw [if_neg h34, if_neg h92, if_neg h8, if_neg h9, if_neg h10, if_neg h12,
        if_neg h13, if_neg h32]
    rw [hesc, List.singleton_append, parseJStr_raw c h34 h92 h32]

theorem escString_nil : escString [] = [] := by rw [escString.eq_def]

/-- The JSON string parser inverts `JSON.stringify` escaping. -/
theorem parseJStr_esc : ∀ (s r : List Nat), parseJStr (escString s ++ 34 :: r) = some (s, r)
  | [], r => by
      rw [escString_nil, List.nil_append, parseJStr.eq_def]
      norm_num
  | [c], r => by
      by_cases hH : isHighSurrogate c
      · have hb : 55296 ≤ c ∧ c ≤ 56319 := by simpa [isHighSurrogate] using hH
        rw [show escString [c] = 92 :: 117 :: hex4 c from by
          rw [escString.eq_def]; dsimp only; rw [if_pos hH]]
        rw [parseJStr_u c (by omega)]
        rw [parseJStr.eq_def]
        norm_num
      · by_cases hL : isLowSurrogate c
        · have hb : 56320 ≤ c ∧ c ≤ 57343 := by simpa [isLowSurrogate] using hL
          rw [show escString [c] = (92 :: 117 :: hex4 c) ++ escString [] from by
            rw [escString.eq_def]; dsimp only; rw [if_neg hH, if_pos hL]]
          rw [escString_nil, List.append_nil]
          rw [parseJStr_u c (by omega)]
          rw [parseJStr.eq_def]
          norm_num
        · rw [show escString [c] = escUnit c ++ escString [] from by
            rw [escString.eq_def]; dsimp only; rw [if_neg hH, if_neg hL]]
          rw [escString_nil, List.append_nil]
          rw [parseJStr_escUnit c hH hL]
          rw [parseJStr.eq_def]
          norm_num
  | c :: d :: cs, r => by
      by_cases hH : isHighSurrogate c
      · have hbc : 55296 ≤ c ∧ c ≤ 56319 := by simpa [isHighSurrogate] using hH
        by_cases hL : isLowSurrogate d
        · have hbd : 56320 ≤ d ∧ d ≤ 57343 := by simpa [isLowSurrogate] using hL
          rw [show escString (c :: d :: cs) = c :: d :: escString cs from by
            rw [escString.eq_def]; dsimp only; rw [if_pos hH]; rw [if_pos hL]]
          rw [List.cons_append, List.cons_append]
          rw [parseJStr_raw c (by omega) (by omega) (by omega)]
          rw [parseJStr_raw d (by omega) (by omega) (by omega)]
          rw [parseJStr_esc cs r]
          rfl
        · rw [show escString (c :: d :: cs) = (92 :: 117 :: hex4 c) ++ escString (d :: cs) from by
            rw [escString.eq_def]; dsimp only; rw [if_pos hH]; rw [if_neg hL]]
          rw [List.append_assoc]
          rw [parseJStr_u c (by omega)]
          rw [parseJStr_esc (d :: cs) r]
          rfl
      · by_cases hL : isLowSurrogate c
        · have hbc : 56320 ≤ c ∧ c ≤ 57343 := by simpa [isLowSurrogate] using hL
          rw [show escString (c :: d :: cs) = (92 :: 117 :: hex4 c) ++ escString (d :: cs) from by
            rw [escString.eq_def]; dsimp only; rw [if_neg hH, if_pos hL]]
          rw [List.append_assoc]
          rw [parseJStr_u c (by omega)]
          rw [parseJStr_esc (d :: cs) r]
          rfl
        · rw [show escString (c :: d :: cs) = escUnit c ++ escString (d :: cs) from by
            rw [escString.eq_def]; dsimp only; rw [if_neg hH, if_neg hL]]
          rw [List.append_assoc]
          rw [parseJStr_escUnit c hH hL]
          rw [parseJStr_esc (d :: cs) r]
          rfl

theorem skipWs_cons (c : Nat) (l : List Nat) (h : ¬(c = 32 ∨ c = 9 ∨ c = 10 ∨ c = 13)) :
    skipWs (c :: l) = c :: l := by
  simp only [skipWs, if_neg h]

theorem parseValue_str (fuel : Nat) (s l : List Nat) :
    parseValue (fuel + 1) (34 :: (escString s ++ 34 :: l)) = some (.str s, l) := by
  rw [parseValue.eq_def]
  norm_num [parseJStr_esc]

/-- The member parser reads back the stringified members of a non-empty
flat string map. -/
theorem parseMembers_strMap : ∀ (m : HeaderMap) (fuel : Nat) (r : List Nat),
    m ≠ [] → m.length < fuel →
    parseMembers fuel (stringifyMembers m ++ 125 :: r) =
      some (m.map (fun kv => (kv.1, JsonVal.str kv.2)), r)
  | [], _, _, hne, _ => absurd rfl hne
  | [(k, v)], 0, _, _, hf => absurd hf (by simp)
  | [(k, v)], 1, _, _, hf => absurd hf (by simp)
  | [(k, v)], Nat.succ (Nat.succ f), r, _, _ => by
      simp only [stringifyMembers, List.map_cons, List.map_nil, joinComma, quoteStr,
        List.cons_append, List.append_assoc, List.singleton_append, List.nil_append]
      rw [parseMembers.eq_def]
      norm_num [skipWs, parseJStr_esc, parseValue_str f v (125 :: r)]
  | (k, v) :: kv2 :: ms, 0, _, _, hf => absurd hf (by simp)
  | (k, v) :: kv2 :: ms, Nat.succ f, r, _, hf => by
      cases f with
      | zero =>
          exact absurd hf (by simp only [List.length_cons]; omega)
      | succ g =>
          have ih := parseMembers_strMap (kv2 :: ms) (g + 1) r (by simp) (by
            simp only [List.length_cons] at hf ⊢
            omega)
          simp only [stringifyMembers, List.map_cons, joinComma, quoteStr,
            List.cons_append, List.append_assoc, List.singleton_append,
            List.nil_append] at ih ⊢
          rw [parseMembers.eq_def]
          norm_num [skipWs, parseJStr_esc]
          rw [parseValue_str g v]
          norm_num [skipWs]
          rw [ih]

/-- The value parser reads back a stringified flat string map as an
object (duplicate keys resolved by JS assignment). -/
theorem parseValue_flatObj : ∀ (m : HeaderMap) (fuel : Nat) (r : List Nat),
    m.length + 1 < fuel →
    parseValue fuel (123 :: (stringifyMembers m ++ 125 :: r)) =
      some (.obj (dedupPairs (m.map (fun kv => (kv.1, JsonVal.str kv.2)))), r)
  | _, 0, _, hf => absurd hf (Nat.not_lt_zero _)
  | [], Nat.succ f, r, hf => by
      rw [parseValue.eq_def]
      norm_num [stringifyMembers, joinComma, skipWs, dedupPairs]
  | [(k, v)], Nat.succ f, r, hf => by
      have hm := parseMembers_strMap [(k, v)] f r (by simp) (by
        simp only [List.length_singleton] at hf ⊢
        omega)
      rw [parseValue.eq_def]
      simp only [stringifyMembers, List.map_cons, List.map_nil, joinComma, quoteStr,
        List.cons_append, List.append_assoc, List.singleton_append, List.nil_append]
        at hm ⊢
      norm_num [skipWs]
      rw [hm]
      exact ⟨_, rfl, rfl⟩
  | (k, v) :: kv2 :: ms, Nat.succ f, r, hf => by
      have hm := parseMembers_strMap ((k, v) :: kv2 :: ms) f r (by simp) (by
        simp only [List.length_cons] at hf ⊢
        omega)
      rw [parseValue.eq_def]
      simp only [stringifyMembers, List.map_cons, joinComma, quoteStr,
        List.cons_append, List.append_assoc, List.singleton_append, List.nil_append]
        at hm ⊢
      norm_num [skipWs]
      rw [hm]
      exact ⟨_, rfl, rfl⟩

theorem stringifyMembers_len_ge : ∀ m : HeaderMap, m.length ≤ (stringifyMembers m).length
  | [] => by simp [stringifyMembers, joinComma]
  | [(k, v)] => by
      simp [stringifyMembers, joinComma, quoteStr]
  | (k, v) :: kv2 :: ms => by
      have ih := stringifyMembers_len_ge (kv2 :: ms)
      simp only [stringifyMembers, List.map_cons, joinComma, quoteStr, List.length_cons,
        List.length_append] at ih ⊢
      omega

theorem objSet_keys_replace {α : Type} (m : List (List Nat × α)) (k : List Nat) (v : α) :
    (m.map (fun kv => if kv.1 = k then (k, v) else kv)).map Prod.fst = m.map Prod.fst := by
  rw [List.map_map]
  refine List.map_congr_left ?_
  intro kv _
  by_cases h : kv.1 = k <;> simp [h]

theorem objSet_not_mem {α : Type} (m : List (List Nat × α)) (k : List Nat) (v : α)
    (h : ¬ k ∈ m.map Prod.fst) : objSet m k v = m ++ [(k, v)] := by
  have hany : ¬ (m.any (fun kv => kv.1 = k) = true) := by
    simp only [List.any_eq_true, decide_eq_true_eq]
    rintro ⟨kv, hkv, heq⟩
    exact h (List.mem_map.2 ⟨kv, hkv, heq⟩)
  unfold objSet
  rw [if_neg hany]

theorem objSet_keys_nodup {α : Type} (m : List (List Nat × α)) (k : List Nat) (v : α)
    (h : (m.map Prod.fst).Nodup) : ((objSet m k v).map Prod.fst).Nodup := by
  unfold objSet
  split
  · rw [objSet_keys_replace]
    exact h
  · rename_i hany
    have hk : ¬ k ∈ m.map Prod.fst := by
      intro hmem
      obtain ⟨kv, hkv, hfst⟩ := List.mem_map.1 hmem
      exact hany (List.any_eq_true.2 ⟨kv, hkv, by simp [hfst]⟩)
    simp only [List.map_append, List.map_cons, List.map_nil]
    rw [List.nodup_append]
    refine ⟨h, List.nodup_singleton _, ?_⟩
    intro a ha hmem
    rw [List.mem_singleton] at hmem
    subst hmem
    exact hk ha

theorem foldl_objSet_nodup {α : Type} :
    ∀ (m acc : List (List Nat × α)), ((acc ++ m).map Prod.fst).Nodup →
      m.foldl (fun a kv => objSet a kv.1 kv.2) acc = acc ++ m
  | [], acc, _ => by simp
  | (k, v) :: rest, acc, h => by
      have hk : ¬ k ∈ acc.map Prod.fst := by
        simp only [List.map_append, List.map_cons, List.nodup_append] at h
        intro hmem
        exact (h.2.2 hmem) (by simp)
      have step : objSet acc k v = acc ++ [(k, v)] := objSet_not_mem _ _ _ hk
      have ih := foldl_objSet_nodup rest (acc ++ [(k, v)]) (by
        simpa [List.append_assoc] using h)
      rw [List.foldl_cons, step, ih, List.append_assoc]
      simp

theorem dedupPairs_self {α : Type} (m : List (List Nat × α))
    (h : (m.map Prod.fst).Nodup) : dedupPairs m = m := by
  have := foldl_objSet_nodup m [] (by simpa using h)
  simpa [dedupPairs] using this

theorem lowerHeaders_keys_nodup (h : HeaderMap) :
    ((lowerHeaders h).map Prod.fst).Nodup := by
  suffices H : ∀ (l : HeaderMap) (acc : HeaderMap), (acc.map Prod.fst).Nodup →
      ((l.foldl (fun m kv => objSet m (jsToLowerStr kv.1) kv.2) acc).map Prod.fst).Nodup by
    exact H h [] (by simp)
  intro l
  induction l with
  | nil =>
      intro acc hacc
      simpa using hacc
  | cons kv rest ih =>
      intro acc hacc
      exact ih (objSet acc (jsToLowerStr kv.1) kv.2) (objSet_keys_nodup _ _ _ hacc)

theorem lowerHeaders_eq (h : HeaderMap) :
    lowerHeaders h = dedupPairs (h.map (fun kv => (jsToLowerStr kv.1, kv.2))) := by
  unfold lowerHeaders dedupPairs
  rw [List.foldl_map]

theorem strMap_keys (m : HeaderMap) :
    ((m.map (fun kv => (kv.1, JsonVal.str kv.2))).map Prod.fst) = m.map Prod.fst := by
  rw [List.map_map]
  rfl

theorem jsonParse_stringifyFlat (m : HeaderMap) :
    jsonParse (jsonStringifyFlat m) =
      some (.obj (dedupPairs (m.map (fun kv => (kv.1, JsonVal.str kv.2))))) := by
  unfold jsonParse jsonStringifyFlat
  have hlen : m.length + 1 < (123 :: stringifyMembers m ++ [125]).length + 1 := by
    have := stringifyMembers_len_ge m
    simp only [List.length_cons, List.length_append, List.length_singleton]
    omega
  rw [List.cons_append, skipWs_cons 123 _ (by norm_num)]
  rw [parseValue_flatObj m _ [] (by simpa using hlen)]
  rfl

/-- C2: decoding inverts encoding on every header map: the result is the
input object re-keyed by JS lower-case assignment (for maps whose
lower-cased keys are pairwise distinct this is exactly key-wise
lower-casing, as the claim states); and decoding is total — the empty
token and every token `JSON.parse` rejects yield the empty map instead
of an exception. -/
theorem C2_headers_roundtrip :
    (∀ h : HeaderMap,
        decodeHeaders (encodeHeaders h) =
          .obj ((lowerHeaders h).map (fun kv => (kv.1, JsonVal.str kv.2)))) ∧
    (∀ h : HeaderMap, (h.map (fun kv => jsToLowerStr kv.1)).Nodup →
        decodeHeaders (encodeHeaders h) =
          .obj (h.map (fun kv => (jsToLowerStr kv.1, JsonVal.str kv.2)))) ∧
    decodeHeaders [] = .obj [] ∧
    (∀ s, jsonParse s = none → decodeHeaders s = .obj []) := by
  have main : ∀ h : HeaderMap,
      decodeHeaders (encodeHeaders h) =
        .obj ((lowerHeaders h).map (fun kv => (kv.1, JsonVal.str kv.2))) := by
    intro h
    have hne : jsonStringifyFlat (lowerHeaders h) ≠ [] := by
      unfold jsonStringifyFlat
      simp
    have hparse := jsonParse_stringifyFlat (lowerHeaders h)
    have hnodup :
        (((lowerHeaders h).map (fun kv => (kv.1, JsonVal.str kv.2))).map Prod.fst).Nodup := by
      rw [strMap_keys]
      exact lowerHeaders_keys_nodup h
    show decodeHeaders (jsonStringifyFlat (lowerHeaders h)) = _
    unfold decodeHeaders
    rw [if_neg hne, hparse, dedupPairs_self _ hnodup]
  refine ⟨main, ?_, rfl, ?_⟩
  · intro h hnd
    have hkeys : ((h.map (fun kv => (jsToLowerStr kv.1, kv.2))).map Prod.fst).Nodup := by
      rw [List.map_map]
      exact hnd
    rw [main h, lowerHeaders_eq, dedupPairs_self _ hkeys, List.map_map]
    rfl
  · intro s hs
    by_cases h0 : s = []
    · subst h0
      rfl
    · unfold decodeHeaders
      rw [if_neg h0, hs]

/-- Witness for C2 at concrete inputs: a malformed token yields the
empty map and a two-entry map with mixed-case keys round-trips to its
lower-cased form. -/
theorem C2_headers_roundtrip_witness :
    decodeHeaders [123] = .obj [] ∧
    decodeHeaders
        (encodeHeaders [(strUnits ("Content-Type"), strUnits ("application/json"))]) =
      .obj [(strUnits ("content-type"), JsonVal.str (strUnits ("application/json")))] := by
  constructor
  · exact C2_headers_roundtrip.2.2.2 [123] rfl
  · have := C2_headers_roundtrip.2.1
      [(strUnits ("Content-Type"), strUnits ("application/json"))] (by simp)
    exact this.trans (by rfl)

theorem find?_update (l : List ServerInfo) (n : List Nat) (f : ServerInfo → ServerInfo)
    (hf : ∀ s, (f s).url = s.url) :
    (l.map (fun s => if s.url = n then f s else s)).find? (fun s => s.url = n) =
      (l.find? (fun s => s.url = n)).map f := by
  induction l with
  | nil => rfl
  | cons s rest ih =>
      by_cases h : s.url = n
      · rw [List.map_cons, if_pos h,
          List.find?_cons_of_pos _ (by simp [hf s, h]),
          List.find?_cons_of_pos _ (by simp [h])]
        rfl
      · rw [List.map_cons, if_neg h,
          List.find?_cons_of_neg _ (by simp [h]),
          List.find?_cons_of_neg _ (by simp [h]), ih]

theorem find?_update_other (l : List ServerInfo) (n n2 : List Nat) (hne : n2 ≠ n)
    (f : ServerInfo → ServerInfo) (hf : ∀ s, (f s).url = s.url) :
    (l.map (fun s => if s.url = n then f s else s)).find? (fun s => s.url = n2) =
      l.find? (fun s => s.url = n2) := by
  induction l with
  | nil => rfl
  | cons s rest ih =>
      by_cases h : s.url = n
      · have h2 : ¬ s.url = n2 := fun hc => hne (hc ▸ h)
        rw [List.map_cons, if_pos h,
          List.find?_cons_of_neg _ (by simp [hf s, h2]),
          List.find?_cons_of_neg _ (by simp [h2]), ih]
      · by_cases h2 : s.url = n2
        · rw [List.map_cons, if_neg h,
            List.find?_cons_of_pos _ (by simp [h2]),
            List.find?_cons_of_pos _ (by simp [h2])]
        · rw [List.map_cons, if_neg h,
            List.find?_cons_of_neg _ (by simp [h2]),
            List.find?_cons_of_neg _ (by simp [h2]), ih]

theorem findServer_reportFailure (pool : ServerPool) (url : List Nat) (now : Int) :
    findServer (reportFailure pool url now) url =
      (findServer pool url).map (fun s =>
        { s with
          failCount := s.failCount + 1, totalRequests := s.totalRequests + 1,
          lastCheck := now,
          healthy := if pool.options.maxFailures ≤ s.failCount + 1 then false
                     else s.healthy }) := by
  unfold reportFailure updateServer findServer
  exact find?_update _ _ _ (fun s => rfl)

theorem findServer_reportSuccess (pool : ServerPool) (url : List Nat)
    (latency : Option ℚ) (now : Int) :
    findServer (reportSuccess pool url latency now) url =
      (findServer pool url).map (fun s =>
        { s with
          healthy := true, failCount := 0, successCount := s.successCount + 1,
          totalRequests := s.totalRequests + 1, lastCheck := now,
          latency :=
            match latency with
            | some l => if 0 < l then emaUpdate s.latency l else s.latency
            | none => s.latency }) := by
  unfold reportSuccess updateServer findServer
  exact find?_update _ _ _ (fun s => rfl)

theorem reportFailure_options (pool : ServerPool) (url : List Nat) (now : Int) :
    (reportFailure pool url now).options = pool.options := rfl

/-- C3: a node tracked with `maxFailures = 3` that starts healthy with
zero consecutive failures is still healthy after two failure reports,
unhealthy after exactly three, and a single subsequent success report
(whatever its latency sample) makes it healthy again with the failure
counter reset to zero. -/
theorem C3_failure_threshold (pool : ServerPool) (url : List Nat) (s : ServerInfo)
    (hmax : pool.options.maxFailures = 3)
    (hfind : findServer pool url = some s)
    (h0 : s.failCount = 0) (hh : s.healthy = true)
    (t1 t2 t3 t4 : Int) (lat : Option ℚ) :
    ∃ s2 s3 s4,
      findServer (reportFailure (reportFailure pool url t1) url t2) url = some s2 ∧
      s2.healthy = true ∧ s2.failCount = 2 ∧
      findServer (reportFailure (reportFailure (reportFailure pool url t1) url t2) url t3)
          url = some s3 ∧
      s3.healthy = false ∧ s3.failCount = 3 ∧
      findServer (reportSuccess (reportFailure (reportFailure (reportFailure pool url t1)
          url t2) url t3) url lat t4) url = some s4 ∧
      s4.healthy = true ∧ s4.failCount = 0 := by
  have h1 := findServer_reportFailure pool url t1
  rw [hfind] at h1
  have h2 := findServer_reportFailure (reportFailure pool url t1) url t2
  rw [h1, reportFailure_options, hmax] at h2
  rw [hmax] at h1
  have h3 := findServer_reportFailure
    (reportFailure (reportFailure pool url t1) url t2) url t3
  rw [h2, reportFailure_options, reportFailure_options, hmax] at h3
  have h4 := findServer_reportSuccess
    (reportFailure (reportFailure (reportFailure pool url t1) url t2) url t3) url lat t4
  rw [h3] at h4
  simp only [Option.map_some'] at h1 h2 h3 h4
  refine ⟨_, _, _, h2, ?_, ?_, h3, ?_, ?_, h4, rfl, rfl⟩
  · simp [h0, hh]
  · simp [h0]
  · simp [h0]
  · simp [h0]

/-- Witness for C3 on a concrete one-node pool. -/
theorem C3_failure_threshold_witness :
    ∃ s2 s3 s4,
      findServer (reportFailure (reportFailure (addServer
          { options := defaultPoolOptions, servers := [], roundRobinIndex := 0 }
          (strUnits ("https://a")) 10) (strUnits ("https://a")) 1) (strUnits ("https://a")) 2)
          (strUnits ("https://a")) = some s2 ∧
      s2.healthy = true ∧ s2.failCount = 2 ∧
      findServer (reportFailure (reportFailure (reportFailure (addServer
          { options := defaultPoolOptions, servers := [], roundRobinIndex := 0 }
          (strUnits ("https://a")) 10) (strUnits ("https://a")) 1) (strUnits ("https://a")) 2)
          (strUnits ("https://a")) 3) (strUnits ("https://a")) = some s3 ∧
      s3.healthy = false ∧ s3.failCount = 3 ∧
      findServer (reportSuccess (reportFailure (reportFailure (reportFailure (addServer
          { options := defaultPoolOptions, servers := [], roundRobinIndex := 0 }
          (strUnits ("https://a")) 10) (strUnits ("https://a")) 1) (strUnits ("https://a")) 2)
          (strUnits ("https://a")) 3) (strUnits ("https://a")) (some 25) 4)
          (strUnits ("https://a")) = some s4 ∧
      s4.healthy = true ∧ s4.failCount = 0 :=
  C3_failure_threshold _ (strUnits ("https://a"))
    { url := strUnits ("https://a"), priority := 10, healthy := true, latency := .inf,
      failCount := 0, lastCheck := 0, successCount := 0, totalRequests := 0 }
    rfl (by rfl) rfl rfl 1 2 3 4 (some 25)

/-- C4 (amended): on a success report carrying a positive numeric
latency sample, a node with no prior estimate adopts the sample
unchanged, and a node with estimate `q` adopts
`Math.round(0.7*q + 0.3*sample)` — the exponential moving average
rounded to the nearest integer; a non-positive sample, or a report
without a sample, leaves the estimate untouched. -/
theorem C4_latency_ema (pool : ServerPool) (url : List Nat) (s : ServerInfo)
    (hfind : findServer pool url = some s) (now : Int) :
    (∀ l : ℚ, 0 < l → s.latency = .inf →
      (findServer (reportSuccess pool url (some l) now) url).map ServerInfo.latency =
        some (.fin l)) ∧
    (∀ (l q : ℚ), 0 < l → s.latency = .fin q →
      (findServer (reportSuccess pool url (some l) now) url).map ServerInfo.latency =
        some (.fin (jsRound (q * (7 / 10) + l * (3 / 10))))) ∧
    (∀ l : ℚ, ¬ 0 < l →
      (findServer (reportSuccess pool url (some l) now) url).map ServerInfo.latency =
        some s.latency) ∧
    ((findServer (reportSuccess pool url none now) url).map ServerInfo.latency =
      some s.latency) := by
  refine ⟨?_, ?_, ?_, ?_⟩
  · intro l hl hinf
    rw [findServer_reportSuccess, hfind]
    simp [emaUpdate, hl, hinf]
  · intro l q hl hq
    rw [findServer_reportSuccess, hfind]
    simp [emaUpdate, hl, hq]
  · intro l hl
    rw [findServer_reportSuccess, hfind]
    simp [hl]
  · rw [findServer_reportSuccess, hfind]
    simp

/-- C4 counterexample: from estimate 10 a success with sample 1 stores
`Math.round(7.3) = 7`, not the exact `0.7*10 + 0.3*1 = 7.3` the claim
asserts; and a success carrying sample 0 leaves the estimate at 10
instead of moving it to `0.7*10 + 0.3*0 = 7`. -/
theorem C4_latency_ema_counterexample :
    ((findServer (reportSuccess (reportSuccess (addServer
        { options := defaultPoolOptions, servers := [], roundRobinIndex := 0 }
        (strUnits ("https://a")) 10) (strUnits ("https://a")) (some 10) 0)
        (strUnits ("https://a")) (some 1) 0) (strUnits ("https://a"))).map
      ServerInfo.latency = some (.fin 7)) ∧
    JLat.fin 7 ≠ JLat.fin ((7 : ℚ) / 10 * 10 + (3 : ℚ) / 10 * 1) ∧
    ((findServer (reportSuccess (reportSuccess (addServer
        { options := defaultPoolOptions, servers := [], roundRobinIndex := 0 }
        (strUnits ("https://a")) 10) (strUnits ("https://a")) (some 10) 0)
        (strUnits ("https://a")) (some 0) 0) (strUnits ("https://a"))).map
      ServerInfo.latency = some (.fin 10)) := by
  have base : findServer (addServer
      { options := defaultPoolOptions, servers := [], roundRobinIndex := 0 }
      (strUnits ("https://a")) 10) (strUnits ("https://a")) =
      some { url := normalizeUrl (strUnits ("https://a")), priority := 10, healthy := true,
             latency := .inf, failCount := 0, lastCheck := 0, successCount := 0,
             totalRequests := 0 } := by rfl
  refine ⟨?_, ?_, ?_⟩
  · rw [findServer_reportSuccess, findServer_reportSuccess, base]
    simp only [Option.map_some']
    norm_num [emaUpdate, jsRound]
  · intro hEq
    rw [JLat.fin.injEq] at hEq
    norm_num at hEq
  · rw [findServer_reportSuccess, findServer_reportSuccess, base]
    simp only [Option.map_some']
    norm_num [emaUpdate]

/-- Witness for C4 on a fresh node: the first positive sample is stored
as the estimate. -/
theorem C4_latency_ema_witness :
    (findServer (reportSuccess (addServer
        { options := defaultPoolOptions, servers := [], roundRobinIndex := 0 }
        (strUnits ("https://a")) 10) (strUnits ("https://a")) (some 25) 0)
        (strUnits ("https://a"))).map ServerInfo.latency = some (.fin 25) :=
  (C4_latency_ema _ (strUnits ("https://a"))
    { url := strUnits ("https://a"), priority := 10, healthy := true, latency := .inf,
      failCount := 0, lastCheck := 0, successCount := 0, totalRequests := 0 }
    (by rfl) 0).1 25 (by norm_num) rfl

theorem jlt_irrefl : ∀ a : JLat, JLat.lt a a = false
  | .inf => rfl
  | .fin q => by simp [JLat.lt]

theorem jlt_false_of_lt_of_nlt : ∀ a b c : JLat, JLat.lt a b = true → JLat.lt a c = false →
    JLat.lt b c = false
  | .inf, _, _, h, _ => by simp [JLat.lt] at h
  | .fin _, .inf, _, _, _ => rfl
  | .fin _, .fin _, .inf, _, h2 => by simp [JLat.lt] at h2
  | .fin x, .fin y, .fin z, h1, h2 => by
      simp only [JLat.lt, decide_eq_true_eq, decide_eq_false_iff_not] at h1 h2 ⊢
      intro h3
      exact h2 (h1.trans h3)

theorem jlt_nlt_trans : ∀ a b c : JLat, JLat.lt a b = false → JLat.lt b c = false →
    JLat.lt a c = false
  | .inf, _, _, _, _ => rfl
  | .fin _, .inf, _, h1, _ => by simp [JLat.lt] at h1
  | .fin _, .fin _, .inf, _, h2 => by simp [JLat.lt] at h2
  | .fin x, .fin y, .fin z, h1, h2 => by
      simp only [JLat.lt, decide_eq_false_iff_not] at h1 h2 ⊢
      intro h3
      exact h1 (lt_of_lt_of_le h3 (not_lt.1 h2))

theorem jlt_trichotomy : ∀ a b : JLat, JLat.lt a b = false → a = b ∨ JLat.lt b a = true
  | .inf, .inf, _ => Or.inl rfl
  | .inf, .fin _, _ => Or.inr rfl
  | .fin _, .inf, h => by simp [JLat.lt] at h
  | .fin x, .fin y, h => by
      simp only [JLat.lt, decide_eq_false_iff_not, decide_eq_true_eq] at h ⊢
      rcases eq_or_lt_of_le (not_lt.1 h) with heq | hlt
      · exact Or.inl (by rw [heq])
      · exact Or.inr hlt

/-- The invariant of the `#selectFastest` reduce: the accumulator is an
element seen so far with minimal latency, and minimal priority among the
latency ties. -/
theorem foldl_fastest_spec : ∀ (rest : List ServerInfo) (b : ServerInfo),
    (rest.foldl fastestStep b ∈ b :: rest) ∧
    (∀ s ∈ b :: rest, JLat.lt s.latency (rest.foldl fastestStep b).latency = false) ∧
    (∀ s ∈ b :: rest, s.latency = (rest.foldl fastestStep b).latency →
      ¬ s.priority < (rest.foldl fastestStep b).priority)
  | [], b => by
      refine ⟨by simp, ?_, ?_⟩
      · intro s hs
        simp only [List.foldl_nil]
        rw [List.mem_singleton] at hs
        subst hs
        exact jlt_irrefl _
      · intro s hs heq
        simp only [List.foldl_nil]
        rw [List.mem_singleton] at hs
        subst hs
        exact lt_irrefl _
  | s0 :: rest, b => by
      obtain ⟨ihmem, ihlat, ihpri⟩ := foldl_fastest_spec rest (fastestStep b s0)
      rw [List.foldl_cons]
      by_cases hlt : JLat.lt s0.latency b.latency = true
      · have hstep : fastestStep b s0 = s0 := by simp [fastestStep, hlt]
        rw [hstep] at ihmem ihlat ihpri ⊢
        refine ⟨List.mem_cons_of_mem b ihmem, ?_, ?_⟩
        · intro s hs
          rcases List.mem_cons.1 hs with rfl | hs2
          · exact jlt_false_of_lt_of_nlt _ _ _ hlt (ihlat s0 (by simp))
          · exact ihlat s hs2
        · intro s hs heq
          rcases List.mem_cons.1 hs with rfl | hs2
          · have h1 := ihlat s0 (by simp)
            rw [← heq] at h1
            rw [h1] at hlt
            exact absurd hlt (by simp)
          · exact ihpri s hs2 heq
      · by_cases htie : s0.latency = b.latency ∧ s0.priority < b.priority
        · have hstep : fastestStep b s0 = s0 := by
            unfold fastestStep
            rw [if_neg (by simp [hlt]), if_pos htie]
          rw [hstep] at ihmem ihlat ihpri ⊢
          refine ⟨List.mem_cons_of_mem b ihmem, ?_, ?_⟩
          · intro s hs
            rcases List.mem_cons.1 hs with rfl | hs2
            · rw [← htie.1]
              exact ihlat s0 (by simp)
            · exact ihlat s hs2
          · intro s hs heq
            rcases List.mem_cons.1 hs with rfl | hs2
            · have hp := ihpri s0 (by simp) (by rw [htie.1, heq])
              have := htie.2
              omega
            · exact ihpri s hs2 heq
        · have hstep : fastestStep b s0 = b := by
            unfold fastestStep
            rw [if_neg (by simp [hlt]), if_neg htie]
          rw [hstep] at ihmem ihlat ihpri ⊢
          have hlt' : JLat.lt s0.latency b.latency = false := by
            simpa using hlt
          refine ⟨?_, ?_, ?_⟩
          · rcases List.mem_cons.1 ihmem with h | h
            · exact List.mem_cons.2 (Or.inl h)
            · exact List.mem_cons.2 (Or.inr (List.mem_cons_of_mem s0 h))
          · intro s hs
            rcases List.mem_cons.1 hs with rfl | hs2
            · exact ihlat s (by simp)
            rcases List.mem_cons.1 hs2 with rfl | hs3
            · exact jlt_nlt_trans _ _ _ hlt' (ihlat b (by simp))
            · exact ihlat s (List.mem_cons_of_mem b hs3)
          · intro s hs heq
            rcases List.mem_cons.1 hs with rfl | hs2
            · exact ihpri s (by simp) heq
            rcases List.mem_cons.1 hs2 with rfl | hs3
            · rcases jlt_trichotomy _ _ hlt' with heq2 | hgt
              · have h1 : ¬ s.priority < b.priority := fun hp => htie ⟨heq2, hp⟩
                have h2 := ihpri b (by simp) (by rw [← heq2, heq])
                omega
              · have h1 := ihlat b (by simp)
                rw [← heq] at h1
                rw [h1] at hgt
                exact absurd hgt (by simp)
            · exact ihpri s (List.mem_cons_of_mem b hs3) heq


/-- C5: on every non-empty healthy list, `#selectFastest` returns a
member with minimal latency (no member's latency is JS-`<` the chosen
one's), and with minimal priority among the members tied at that
latency; on the claim's examples: latencies A:50 B:30 C:40 select B,
and equal latencies with priorities A:5 B:1 select B. -/
theorem C5_selectFastest :
    (∀ l : List ServerInfo, l ≠ [] → ∃ r, selectFastest l = some r ∧ r ∈ l ∧
        (∀ s ∈ l, JLat.lt s.latency r.latency = false) ∧
        (∀ s ∈ l, s.latency = r.latency → r.priority ≤ s.priority)) ∧
    selectFastest [exNode (strUnits ("https://a")) 50 10,
      exNode (strUnits ("https://b")) 30 10, exNode (strUnits ("https://c")) 40 10] =
      some (exNode (strUnits ("https://b")) 30 10) ∧
    selectFastest [exNode (strUnits ("https://a")) 30 5,
      exNode (strUnits ("https://b")) 30 1] =
      some (exNode (strUnits ("https://b")) 30 1) := by
  refine ⟨?_, by decide, by decide⟩
  intro l hl
  match l, hl with
  | b :: rest, _ =>
      obtain ⟨hmem, hlat, hpri⟩ := foldl_fastest_spec rest b
      exact ⟨_, rfl, hmem, hlat, fun s hs heq => not_lt.1 (hpri s hs heq)⟩

/-- Witness for C5 on the claim's three-node example pool. -/
theorem C5_selectFastest_witness :
    ∃ r, selectFastest [exNode (strUnits ("https://a")) 50 10,
        exNode (strUnits ("https://b")) 30 10, exNode (strUnits ("https://c")) 40 10] =
      some r ∧
      r ∈ [exNode (strUnits ("https://a")) 50 10, exNode (strUnits ("https://b")) 30 10,
        exNode (strUnits ("https://c")) 40 10] ∧
      (∀ s ∈ [exNode (strUnits ("https://a")) 50 10,
          exNode (strUnits ("https://b")) 30 10, exNode (strUnits ("https://c")) 40 10],
        JLat.lt s.latency r.latency = false) ∧
      (∀ s ∈ [exNode (strUnits ("https://a")) 50 10,
          exNode (strUnits ("https://b")) 30 10, exNode (strUnits ("https://c")) 40 10],
        s.latency = r.latency → r.priority ≤ s.priority) :=
  C5_selectFastest.1 _ (by decide)

/-- C10: `addServer` on a URL whose normalized form is already in the
pool updates only that record's priority: the record count is unchanged
(no second record), the stored record keeps its url, healthy flag,
latency estimate, failure count and success/total counters, every
record under a different normalized URL is untouched, and the options
are untouched. -/
theorem C10_addServer_existing (pool : ServerPool) (url : List Nat) (p : Int)
    (s : ServerInfo) (hfind : findServer pool url = some s) :
    (addServer pool url p).servers.length = pool.servers.length ∧
    findServer (addServer pool url p) url = some { s with priority := p } ∧
    (∀ url2, normalizeUrl url2 ≠ normalizeUrl url →
      findServer (addServer pool url p) url2 = findServer pool url2) ∧
    (addServer pool url p).options = pool.options := by
  unfold findServer at hfind
  have hn : pool.servers.any (fun t => t.url = normalizeUrl url) = true := by
    refine List.any_eq_true.2 ⟨s, List.mem_of_find?_eq_some hfind, ?_⟩
    have hp := List.find?_some hfind
    simpa using hp
  have heq : addServer pool url p =
      { pool with servers := pool.servers.map (fun t =>
          if t.url = normalizeUrl url then { t with priority := p } else t) } := by
    unfold addServer
    simp only [hn, if_true]
  rw [heq]
  refine ⟨by simp, ?_, ?_, rfl⟩
  · have h1 := find?_update pool.servers (normalizeUrl url)
      (fun t => { t with priority := p }) (fun t => rfl)
    unfold findServer
    simp only at h1 ⊢
    rw [h1, hfind]
    rfl
  · intro url2 hne
    have h1 := find?_update_other pool.servers (normalizeUrl url) (normalizeUrl url2) hne
      (fun t => { t with priority := p }) (fun t => rfl)
    unfold findServer
    simp only at h1 ⊢
    rw [h1]

/-- Witness for C10: re-adding an existing node with a new priority on
a concrete two-node pool. -/
theorem C10_addServer_existing_witness :
    (addServer (addServer (addServer
        { options := defaultPoolOptions, servers := [], roundRobinIndex := 0 }
        (strUnits ("https://a")) 10) (strUnits ("https://b")) 20)
        (strUnits ("https://a")) 3).servers.length =
      (addServer (addServer
        { options := defaultPoolOptions, servers := [], roundRobinIndex := 0 }
        (strUnits ("https://a")) 10) (strUnits ("https://b")) 20).servers.length ∧
    findServer (addServer (addServer (addServer
        { options := defaultPoolOptions, servers := [], roundRobinIndex := 0 }
        (strUnits ("https://a")) 10) (strUnits ("https://b")) 20)
        (strUnits ("https://a")) 3) (strUnits ("https://a")) =
      some { url := normalizeUrl (strUnits ("https://a")), priority := 3, healthy := true,
             latency := .inf, failCount := 0, lastCheck := 0, successCount := 0,
             totalRequests := 0 } :=
  ⟨(C10_addServer_existing _ (strUnits ("https://a")) 3
      { url := normalizeUrl (strUnits ("https://a")), priority := 10, healthy := true,
        latency := .inf, failCount := 0, lastCheck := 0, successCount := 0,
        totalRequests := 0 } (by rfl)).1,
   (C10_addServer_existing _ (strUnits ("https://a")) 3
      { url := normalizeUrl (strUnits ("https://a")), priority := 10, healthy := true,
        latency := .inf, failCount := 0, lastCheck := 0, successCount := 0,
        totalRequests := 0 } (by rfl)).2.1⟩








/-- The inner selection loop on `hangPool` with both nodes visited
alternates between them and never terminates, whatever the fuel. -/
theorem resolve_hang : ∀ fuel : Nat,
    resolveUntried fuel hangPool 0 [c6urlA, c6urlB] (some c6recA) = none ∧
    resolveUntried fuel hangPool 0 [c6urlA, c6urlB] (some c6recB) = none := by
  intro fuel
  induction fuel with
  | zero => exact ⟨rfl, rfl⟩
  | succ f ih =>
      constructor
      · have step : resolveUntried (f + 1) hangPool 0 [c6urlA, c6urlB] (some c6recA) =
            resolveUntried f hangPool 0 [c6urlA, c6urlB] (some c6recB) := by rfl
        rw [step]
        exact ih.2
      · have step : resolveUntried (f + 1) hangPool 0 [c6urlA, c6urlB] (some c6recB) =
            resolveUntried f hangPool 0 [c6urlA, c6urlB] (some c6recA) := by rfl
        rw [step]
        exact ih.1

/-- C6: with two always-failing nodes and `maxAttempts = 2` the fetch
loop does terminate with the all-failed error after exactly 2 attempts
(the claim's concrete scenario); but on the same pool with
`maxAttempts = 3` (the client default) the third attempt's inner
selection loop never discovers that no untried healthy node remains —
it alternates between the two visited nodes forever — so the operation
reaches the `hang` outcome instead of stopping with `AllNodesFailed`,
for every amount of fuel given to the loop. -/
theorem C6_failover_exhaustion :
    clientFetch allFail 0 2 c6pool = .allFailed 2 ∧
    clientFetch allFail 0 3 c6pool = .hang ∧
    (∀ fuel, resolveUntried fuel hangPool 0 [c6urlA, c6urlB] (some c6recA) = none) :=
  ⟨by decide, by decide, fun fuel => (resolve_hang fuel).1⟩

theorem hset_filter_same (m : HeadersE) (k v : List Nat) :
    (hset m k v).filter (fun kv => kv.1 = k) = [(k, v)] := by
  induction m with
  | nil => simp [hset]
  | cons kv rest ih =>
      by_cases h : kv.1 = k
      · simp only [hset, if_pos h, List.filter_cons, decide_eq_true_eq]
        rw [if_true]
        rw [List.filter_filter]
        have hpt : ∀ x ∈ rest, (decide (x.1 = k) && decide (x.1 ≠ k)) = false := by
          intro a _
          by_cases ha : a.1 = k <;> simp [ha]
        rw [List.filter_congr (q := fun _ => false) hpt]
        simp
      · simp only [hset, if_neg h, List.filter_cons, decide_eq_true_eq]
        exact ih

theorem hset_filter_ne (m : HeadersE) (k v k' : List Nat) (h : k' ≠ k) :
    (hset m k v).filter (fun kv => kv.1 = k') = m.filter (fun kv => kv.1 = k') := by
  induction m with
  | nil => simp [hset, Ne.symm h]
  | cons kv rest ih =>
      by_cases hh : kv.1 = k
      · simp only [hset, if_pos hh, List.filter_cons, decide_eq_true_eq]
        rw [if_neg (Ne.symm h), if_neg (by rw [hh]; exact Ne.symm h)]
        rw [List.filter_filter]
        refine List.filter_congr ?_
        intro a _
        by_cases ha : a.1 = k'
        · have : a.1 ≠ k := by rw [ha]; exact h
          simp [ha, this, h]
        · simp [ha]
      · simp only [hset, if_neg hh, List.filter_cons, decide_eq_true_eq]
        by_cases h2 : kv.1 = k'
        · rw [if_pos h2, if_pos h2, ih]
        · rw [if_neg h2, if_neg h2, ih]

theorem hget_hset_same (m : HeadersE) (k v : List Nat) :
    hget (hset m k v) k = some v := by
  unfold hget
  rw [hset_filter_same]
  rfl

theorem hget_hset_ne (m : HeadersE) (k v k' : List Nat) (h : k' ≠ k) :
    hget (hset m k v) k' = hget m k' := by
  unfold hget
  rw [hset_filter_ne m k v k' h]

theorem hget_optSet (h : HeadersE) (kc : List Nat) (o : Option (List Nat))
    (k : List Nat) (hne : k ≠ kc) :
    hget (match o with
          | some v => if v ≠ [] then hset h kc v else h
          | none => h) k = hget h k := by
  cases o with
  | none => rfl
  | some v =>
      show hget (if v ≠ [] then hset h kc v else h) k = hget h k
      by_cases hv : v ≠ []
      · rw [if_pos hv, hget_hset_ne _ _ _ _ hne]
      · rw [if_neg hv]

/-- C7: the success path of the relay handler replies with wrapper
status 200 whatever the upstream status is, and carries the real
upstream status (as its decimal string), the upstream status text, and
the JSON serialization of the deny-list-filtered upstream header
snapshot in the `x-bare-status`, `x-bare-status-text` and
`x-bare-headers` sidecar response headers. -/
theorem C7_wrapper_response (bare : BareData) (upstream : UpResponse) (cors : HeadersE)
    (strip : List (List Nat)) :
    (handleBareV3Fetched bare upstream cors strip).status = 200 ∧
    hget (handleBareV3Fetched bare upstream cors strip).headers
      (strUnits ("x-bare-status")) = some (natStr upstream.status) ∧
    hget (handleBareV3Fetched bare upstream cors strip).headers
      (strUnits ("x-bare-status-text")) = some upstream.statusText ∧
    hget (handleBareV3Fetched bare upstream cors strip).headers
      (strUnits ("x-bare-headers")) =
      some (stringifySnap (bareSnapshot upstream.headers strip)) := by
  refine ⟨rfl, ?_, ?_, ?_⟩
  · show hget (buildBareResponseHeaders upstream cors strip) _ = _
    simp only [buildBareResponseHeaders]
    rw [hget_optSet _ _ _ _ (by decide), hget_optSet _ _ _ _ (by decide),
      hget_optSet _ _ _ _ (by decide), hget_hset_ne _ _ _ _ (by decide),
      hget_hset_ne _ _ _ _ (by decide), hget_hset_same]
  · show hget (buildBareResponseHeaders upstream cors strip) _ = _
    simp only [buildBareResponseHeaders]
    rw [hget_optSet _ _ _ _ (by decide), hget_optSet _ _ _ _ (by decide),
      hget_optSet _ _ _ _ (by decide), hget_hset_ne _ _ _ _ (by decide),
      hget_hset_same]
  · show hget (buildBareResponseHeaders upstream cors strip) _ = _
    simp only [buildBareResponseHeaders]
    rw [hget_optSet _ _ _ _ (by decide), hget_optSet _ _ _ _ (by decide),
      hget_optSet _ _ _ _ (by decide), hget_hset_same]

theorem objGet_objSet_same {α : Type} (m : List (List Nat × α)) (k : List Nat) (v : α) :
    objGet (objSet m k v) k = some v := by
  unfold objSet
  split
  · rename_i hany
    obtain ⟨kv, hkv, hp⟩ := List.any_eq_true.1 hany
    rw [decide_eq_true_eq] at hp
    unfold objGet
    induction m with
    | nil => cases hkv
    | cons x rest ih =>
        by_cases hx : x.1 = k
        · rw [List.map_cons, if_pos hx, List.find?_cons_of_pos _ (by simp)]
          rfl
        · rw [List.map_cons, if_neg hx, List.find?_cons_of_neg _ (by simp [hx])]
          rcases List.mem_cons.1 hkv with rfl | hm
          · exact absurd hp hx
          · exact ih (List.any_eq_true.2 ⟨kv, hm, by simp [hp]⟩) hm
  · unfold objGet
    induction m with
    | nil => simp
    | cons x rest ih =>
        rename_i hany
        have hx : ¬ x.1 = k := by
          intro hx
          exact hany (List.any_eq_true.2 ⟨x, by simp, by simp [hx]⟩)
        rw [List.cons_append, List.find?_cons_of_neg _ (by simp [hx])]
        exact ih (fun hc => hany (by
          obtain ⟨kv, hkv, hp⟩ := List.any_eq_true.1 hc
          exact List.any_eq_true.2 ⟨kv, List.mem_cons_of_mem x hkv, hp⟩))

theorem objGet_objSet_ne {α : Type} (m : List (List Nat × α)) (k : List Nat) (v : α)
    (k2 : List Nat) (hne : k2 ≠ k) : objGet (objSet m k v) k2 = objGet m k2 := by
  unfold objSet
  split
  · rename_i hany
    clear hany
    unfold objGet
    induction m with
    | nil => rfl
    | cons x rest ih =>
        by_cases hx : x.1 = k
        · have hx2 : ¬ x.1 = k2 := by rw [hx]; exact Ne.symm hne
          rw [List.map_cons, if_pos hx, List.find?_cons_of_neg _ (by simp [Ne.symm hne]),
            List.find?_cons_of_neg _ (by simp [hx2])]
          exact ih
        · by_cases hx2 : x.1 = k2
          · rw [List.map_cons, if_neg hx, List.find?_cons_of_pos _ (by simp [hx2]),
              List.find?_cons_of_pos _ (by simp [hx2])]
          · rw [List.map_cons, if_neg hx, List.find?_cons_of_neg _ (by simp [hx2]),
              List.find?_cons_of_neg _ (by simp [hx2])]
            exact ih
  · unfold objGet
    rw [List.find?_append]
    have : List.find? (fun kv => kv.1 = k2) [(k, v)] = none :=
      List.find?_cons_of_neg _ (by simp [Ne.symm hne])
    rw [this]
    simp

theorem objGet_snapAdd_isSome (m : List (List Nat × HSnapVal)) (k v : List Nat) :
    (objGet (snapAdd m k v) k).isSome = true := by
  unfold snapAdd
  split
  · simp [objGet_objSet_same]
  · split <;> simp [objGet_objSet_same]
  · simp [objGet_objSet_same]

theorem objGet_snapAdd_ne (m : List (List Nat × HSnapVal)) (k v : List Nat)
    (k2 : List Nat) (hne : k2 ≠ k) : objGet (snapAdd m k v) k2 = objGet m k2 := by
  unfold snapAdd
  split
  · rw [objGet_objSet_ne _ _ _ _ hne]
  · split <;> rw [objGet_objSet_ne _ _ _ _ hne]
  · rw [objGet_objSet_ne _ _ _ _ hne]

theorem objGet_snapAdd_isSome_preserve (m : List (List Nat × HSnapVal)) (k v k2 : List Nat)
    (h : (objGet m k2).isSome = true) :
    (objGet (snapAdd m k v) k2).isSome = true := by
  by_cases hk : k2 = k
  · subst hk
    exact objGet_snapAdd_isSome m k2 v
  · rw [objGet_snapAdd_ne _ _ _ _ hk]
    exact h

theorem bareSnapshot_go_stripped (strip : List (List Nat)) (k : List Nat)
    (hk : strip.contains (jsToLowerStr k) = true) :
    ∀ (hs : HeadersE) (acc : List (List Nat × HSnapVal)), objGet acc k = none →
      objGet (hs.foldl (fun acc kv =>
        if strip.contains (jsToLowerStr kv.1) then acc else snapAdd acc kv.1 kv.2) acc) k
        = none
  | [], acc, hacc => hacc
  | kv :: rest, acc, hacc => by
      rw [List.foldl_cons]
      by_cases hh : strip.contains (jsToLowerStr kv.1) = true
      · rw [if_pos hh]
        exact bareSnapshot_go_stripped strip k hk rest acc hacc
      · rw [if_neg hh]
        refine bareSnapshot_go_stripped strip k hk rest _ ?_
        have hne : k ≠ kv.1 := by
          intro heq
          rw [heq] at hk
          exact hh hk
        rw [objGet_snapAdd_ne _ _ _ _ hne]
        exact hacc

theorem bareSnapshot_go_preserve (strip : List (List Nat)) (k : List Nat) :
    ∀ (hs : HeadersE) (acc : List (List Nat × HSnapVal)),
      (objGet acc k).isSome = true →
      (objGet (hs.foldl (fun acc kv =>
        if strip.contains (jsToLowerStr kv.1) then acc else snapAdd acc kv.1 kv.2) acc) k
        ).isSome = true
  | [], acc, hacc => hacc
  | kv :: rest, acc, hacc => by
      rw [List.foldl_cons]
      by_cases hh : strip.contains (jsToLowerStr kv.1) = true
      · rw [if_pos hh]
        exact bareSnapshot_go_preserve strip k rest acc hacc
      · rw [if_neg hh]
        exact bareSnapshot_go_preserve strip k rest _
          (objGet_snapAdd_isSome_preserve _ _ _ _ hacc)

theorem bareSnapshot_go_present (strip : List (List Nat)) (k v : List Nat)
    (hk : strip.contains (jsToLowerStr k) = false) :
    ∀ (hs : HeadersE) (acc : List (List Nat × HSnapVal)), (k, v) ∈ hs →
      (objGet (hs.foldl (fun acc kv =>
        if strip.contains (jsToLowerStr kv.1) then acc else snapAdd acc kv.1 kv.2) acc) k
        ).isSome = true
  | [], _, hmem => absurd hmem (List.not_mem_nil _)
  | kv :: rest, acc, hmem => by
      rw [List.foldl_cons]
      rcases List.mem_cons.1 hmem with heq | hmem2
      · rw [← heq]
        simp only
        rw [if_neg (by rw [hk]; exact Bool.false_ne_true)]
        exact bareSnapshot_go_preserve strip k rest _
          (objGet_snapAdd_isSome _ _ _)
      · exact bareSnapshot_go_present strip k v hk rest _ hmem2

/-- C8 (amended): the relay parses `x-bare-pass-headers` (JSON array or
comma list) but never consults it — the wrapper response is identical
whatever that header carries — and the deny-list filter is
unconditional: every upstream header whose lower-cased name is on the
deny-list is dropped from the snapshot, while every one off the
deny-list is kept. -/
theorem C8_pass_headers_ignored (u rh rf : Option (List Nat)) :
    (∀ raw1 raw2 upstream cors strip,
        handleBareV3Fetched (parseBareListHeaders u rh rf raw1) upstream cors strip =
        handleBareV3Fetched (parseBareListHeaders u rh rf raw2) upstream cors strip) ∧
    (∀ (hs : HeadersE) (strip : List (List Nat)) (k : List Nat),
        strip.contains (jsToLowerStr k) = true →
        objGet (bareSnapshot hs strip) k = none) ∧
    (∀ (hs : HeadersE) (strip : List (List Nat)) (k v : List Nat),
        strip.contains (jsToLowerStr k) = false → (k, v) ∈ hs →
        ∃ w, objGet (bareSnapshot hs strip) k = some w) := by
  refine ⟨fun _ _ _ _ _ => rfl, ?_, ?_⟩
  · intro hs strip k hk
    exact bareSnapshot_go_stripped strip k hk hs [] rfl
  · intro hs strip k v hk hmem
    have := bareSnapshot_go_present strip k v hk hs [] hmem
    exact Option.isSome_iff_exists.1 this

/-- Witness for C8's amended claim at a concrete deny-listed and a
concrete passed-through header. -/
theorem C8_pass_headers_ignored_witness :
    objGet (bareSnapshot [(strUnits ("x-frame-options"), strUnits ("DENY")),
        (strUnits ("content-type"), strUnits ("text/html"))] STRIP_HEADERS)
      (strUnits ("x-frame-options")) = none ∧
    ∃ w, objGet (bareSnapshot [(strUnits ("x-frame-options"), strUnits ("DENY")),
        (strUnits ("content-type"), strUnits ("text/html"))] STRIP_HEADERS)
      (strUnits ("content-type")) = some w :=
  ⟨(C8_pass_headers_ignored none none none).2.1 _ STRIP_HEADERS
      (strUnits ("x-frame-options")) (by decide),
   (C8_pass_headers_ignored none none none).2.2 _ STRIP_HEADERS
      (strUnits ("content-type")) (strUnits ("text/html")) (by decide) (by simp)⟩

/-- C8 counterexample: a deny-listed response header named in
`x-bare-pass-headers` is not surfaced: the parsed pass list names
`x-frame-options` and the upstream response carries it, yet the
snapshot serialized into `x-bare-headers` contains only `content-type`
and has no entry for `x-frame-options`. -/
theorem C8_pass_headers_counterexample :
    (parseBareListHeaders none none none
        (some (strUnits ("[\"x-frame-options\"]")))).passHeaders =
      JsonVal.arr [.str (strUnits ("x-frame-options"))] ∧
    hget (handleBareV3Fetched (parseBareListHeaders none none none
        (some (strUnits ("[\"x-frame-options\"]"))))
        { status := 200, statusText := strUnits ("OK"),
          headers := [(strUnits ("x-frame-options"), strUnits ("DENY")),
                      (strUnits ("content-type"), strUnits ("text/html"))] }
        [] STRIP_HEADERS).headers (strUnits ("x-bare-headers")) =
      some (stringifySnap [(strUnits ("content-type"),
        HSnapVal.one (strUnits ("text/html")))]) ∧
    objGet (bareSnapshot [(strUnits ("x-frame-options"), strUnits ("DENY")),
        (strUnits ("content-type"), strUnits ("text/html"))] STRIP_HEADERS)
      (strUnits ("x-frame-options")) = none := by
  exact ⟨rfl, rfl, rfl⟩

/-- C9: every failing fetch — URL construction error, network
rejection, non-OK registry status, body parse failure, or a parsed body
whose node extraction throws — leaves the cached node set and the
last-fetch timestamp completely untouched, notifies no listener, and
surfaces a `DiscoveryError` to the caller; only a successful fetch
replaces the cache, stamps the fetch time, and notifies listeners with
exactly the new set. -/
theorem C9_discovery_cache (st : DiscoveryState) (outcome : RegFetchOutcome) (now : Int) :
    (∀ e, (fetchNodes st outcome now).2.1 = .error e →
      (fetchNodes st outcome now).1 = st ∧ (fetchNodes st outcome now).2.2 = none) ∧
    (∀ ns, (fetchNodes st outcome now).2.1 = .ok ns →
      (fetchNodes st outcome now).1 = { nodes := ns, lastFetch := now } ∧
      (fetchNodes st outcome now).2.2 = some ns) ∧
    (∀ data, outcome = .jsonOk data → extractNodes data = none →
      (fetchNodes st outcome now).2.1 = .error .fetchError) ∧
    ((outcome = .networkError ∨ outcome = .urlError ∨ outcome = .badJson ∨
        (∃ c, outcome = .badStatus c)) →
      (fetchNodes st outcome now).2.1 = .error .fetchError) := by
  refine ⟨?_, ?_, ?_, ?_⟩
  · intro e he
    cases outcome with
    | jsonOk data =>
        cases hx : extractNodes data with
        | none => refine ⟨?_, ?_⟩ <;> simp [fetchNodes, hx]
        | some raw =>
            simp only [fetchNodes, hx] at he
            exact Except.noConfusion he
    | urlError => exact ⟨rfl, rfl⟩
    | networkError => exact ⟨rfl, rfl⟩
    | badStatus c => exact ⟨rfl, rfl⟩
    | badJson => exact ⟨rfl, rfl⟩
  · intro ns hns
    cases outcome with
    | jsonOk data =>
        cases hx : extractNodes data with
        | none =>
            simp only [fetchNodes, hx] at hns
            exact Except.noConfusion hns
        | some raw =>
            simp only [fetchNodes, hx] at hns ⊢
            simp only [Except.ok.injEq] at hns
            subst hns
            exact ⟨rfl, rfl⟩
    | urlError => simp [fetchNodes] at hns
    | networkError => simp [fetchNodes] at hns
    | badStatus c => simp [fetchNodes] at hns
    | badJson => simp [fetchNodes] at hns
  · intro data hdata hx
    subst hdata
    simp only [fetchNodes, hx]
  · intro h
    rcases h with rfl | rfl | rfl | ⟨c, rfl⟩ <;> rfl

/-- Witness for C9: a network failure against a concrete non-empty
cache leaves it unchanged and notifies nobody. -/
theorem C9_discovery_cache_witness :
    (fetchNodes
        { nodes := [{ url := strUnits ("https://x"), name := none, region := none,
                      operator := none, verified := false, features := [],
                      uptime := none }], lastFetch := 5 } .networkError 99).1 =
      { nodes := [{ url := strUnits ("https://x"), name := none, region := none,
                    operator := none, verified := false, features := [],
                    uptime := none }], lastFetch := 5 } ∧
    (fetchNodes
        { nodes := [{ url := strUnits ("https://x"), name := none, region := none,
                      operator := none, verified := false, features := [],
                      uptime := none }], lastFetch := 5 } .networkError 99).2.2 = none :=
  (C9_discovery_cache _ .networkError 99).1 .fetchError rfl
